import Mathlib

/-!
# Assembly interpreter: embedding of `interpreter.c`

A shallow embedding of the decode/execute engine of `src/interpreter.c`.

Modelling conventions.

* C `int` values are mathematical integers; every `+`, `-`, `+=`, `-=` the
  source performs on run-time values is followed by `wrap32`, the reduction to
  the signed 32-bit range.  `/` on `int` is C division (truncation toward
  zero), `Int.tdiv`.
* `interpreter.h` is not part of the sources.  The constant `MEMORY_SIZE` is a
  parameter of every function that mentions it (`(MEMORY_SIZE - 1) * 4` is a
  compile-time constant and is not wrapped).  The enumerations and structures
  are reconstructed from their uses in `interpreter.c`.
* C strings are `String`s; `strcmp(a, b) == 0` is equality.  Fixed-size
  character buffers (`str[5]`, `part1[20]`, ...) are taken to be large enough
  for what is written into them.
* The machine state is passed in and returned: an executor returns its
  `ExecResult` together with the state it leaves behind.
-/

namespace Interp

/-! ## Data model -/

/-- Register identities, with `NOT_REG` for "not a register". -/
inductive RegisterName where
  | EAX | EDX | ECX | ESP | EBP | EIP | NOT_REG
  deriving DecidableEq, Repr

/-- Kind of a decoded operand. -/
inductive OperandType where
  | REG | MEM | CONST | UNKNOWN
  deriving DecidableEq, Repr

/-- Decoded operand: the `MemoryType` record of the source. -/
structure MemoryType where
  type : OperandType
  reg : RegisterName
  value : Int
  deriving DecidableEq, Repr

/-- Result codes of the executors. -/
inductive ExecResult where
  | SUCCESS | INSTRUCTION_ERROR | MEMORY_ERROR | PC_ERROR
  deriving DecidableEq, Repr

/-- The `memory` member of the machine.  `instruction` lists the populated
slots of the instruction store, in order (the loader fills slots
`0 .. num_instructions - 1` and nothing else writes the store); `data` is the
word array, indexed by word index.  Indices `0 .. MEMORY_SIZE - 1` are the
array itself; an index outside that range stands for the word an out-of-bounds
C access would touch. -/
structure Memory where
  instruction : List String
  data : Int → Int

/-- Count of populated instruction slots. -/
def Memory.num_instructions (m : Memory) : Int := m.instruction.length

/-- The machine state.  `registers` is read at `NOT_REG` only by the address
computations the executors perform before looking at the operand kind; the
value read there is never used. -/
structure System where
  registers : RegisterName → Int
  memory : Memory
  comparison_flag : Int

/-- Reduction of an integer to the signed 32-bit range. -/
def wrap32 (x : Int) : Int := (x + 2147483648) % 4294967296 - 2147483648

/-- The state after `sys->registers[r] = v`. -/
def System.setReg (sys : System) (r : RegisterName) (v : Int) : System :=
  { sys with registers := Function.update sys.registers r v }

/-- The state after `sys->memory.data[i] = v`. -/
def System.setData (sys : System) (i : Int) (v : Int) : System :=
  { sys with memory := { sys.memory with data := Function.update sys.memory.data i v } }

/-- The state after `sys->comparison_flag = v`. -/
def System.setFlag (sys : System) (v : Int) : System :=
  { sys with comparison_flag := v }

/-! ## Text scanning (`atoi`, `sscanf`) -/

/-- The C `isspace` test. -/
def isspace (c : Char) : Bool :=
  c = ' ' || c = '\t' || c = '\n' || c = '\x0b' || c = '\x0c' || c = '\r'

/-- Value of a run of decimal digits, most significant first. -/
def digits_value (ds : List Char) : Int :=
  ds.foldl (fun acc d => acc * 10 + ((d.toNat : Int) - 48)) 0

/-- Scan of a decimal integer as `%d` and `atoi` do it: skip white space, read
an optional sign and at least one digit.  Returns the value and the rest of
the input, or `none` when no digit is found.  A value outside the `int` range
is reduced by `wrap32` (C leaves that case undefined). -/
def scan_int (cs : List Char) : Option (Int × List Char) :=
  let cs1 := cs.dropWhile isspace
  let (neg, cs2) :=
    match cs1 with
    | '-' :: r => (true, r)
    | '+' :: r => (false, r)
    | r => (false, r)
  let ds := cs2.takeWhile Char.isDigit
  if ds.isEmpty then none
  else
    let v := digits_value ds
    some (wrap32 (if neg then -v else v), cs2.dropWhile Char.isDigit)

/-- The C `atoi`: the scanned integer, `0` when there is none. -/
def atoi (cs : List Char) : Int :=
  match scan_int cs with
  | some (v, _) => v
  | none => 0

/-- Scan of a word as `%s` does it: skip white space, read the following run
of non-space characters.  `none` when the input ends first. -/
def scan_word (cs : List Char) : Option (List Char) :=
  let w := (cs.dropWhile isspace).takeWhile (fun c => !isspace c)
  if w.isEmpty then none else some w

/-! ## Operand decoder and label resolver -/

/-- Source: `get_register_by_name`. -/
def get_register_by_name (name : String) : RegisterName :=
  if name = "%EAX" then .EAX
  else if name = "%EDX" then .EDX
  else if name = "%ECX" then .ECX
  else if name = "%ESP" then .ESP
  else if name = "%EBP" then .EBP
  else if name = "%EIP" then .EIP
  else .NOT_REG

/-- The two `sscanf` calls of `get_memory_type`: the offset left in
`result.value` and the word left in `str` (`none` when `sscanf` stops before
assigning `str`). -/
def scan_memory_operand (cs : List Char) : Int × Option (List Char) :=
  match cs with
  | '(' :: rest => (0, scan_word rest)
  | _ =>
    match scan_int cs with
    | none => (-1, none)
    | some (v, '(' :: rest) => (v, scan_word rest)
    | some (v, _) => (v, none)

/-- Source: `get_memory_type`.  When `sscanf` assigns nothing to `str` the C
code goes on to read the uninitialised buffer; here that buffer is taken to
hold no register spelling, so the operand stays `UNKNOWN`. -/
def get_memory_type (operand : String) : MemoryType :=
  let reg := get_register_by_name operand
  if reg ≠ .NOT_REG then { type := .REG, reg := reg, value := -1 }
  else
    let cs := operand.toList
    if cs.head? = some '$' then
      { type := .CONST, reg := .NOT_REG, value := atoi cs.tail }
    else if '(' ∈ cs ∧ ')' ∈ cs then
      match scan_memory_operand cs with
      | (value, none) => { type := .UNKNOWN, reg := .NOT_REG, value := value }
      | (value, some str) =>
        let reg2 := get_register_by_name (String.mk str.dropLast)
        if reg2 ≠ .NOT_REG then { type := .MEM, reg := reg2, value := value }
        else { type := .UNKNOWN, reg := .NOT_REG, value := value }
    else { type := .UNKNOWN, reg := .NOT_REG, value := -1 }

/-- The scan loop of `get_addr_from_label`, from slot `i` on.  `(i + 1) * 4`
is not wrapped: `i` stays below the capacity of the store. -/
def scan_label (label : String) : List String → Nat → Int
  | [], _ => -1
  | line :: rest, i => if line = label then ((i : Int) + 1) * 4 else scan_label label rest (i + 1)

/-- Source: `get_addr_from_label`. -/
def get_addr_from_label (sys : System) (label : String) : Int :=
  if label.toList.head? ≠ some '.' then -1
  else scan_label label sys.memory.instruction 0

/-! ## Data executors -/

/-- Source: `execute_movl`. -/
def execute_movl (MEMORY_SIZE : Int) (sys : System) (src dst : String) : ExecResult × System :=
  let source := get_memory_type src
  let destination := get_memory_type dst
  match source.type with
  | .REG =>
    match destination.type with
    | .CONST => (.INSTRUCTION_ERROR, sys)
    | .REG => (.SUCCESS, sys.setReg destination.reg (sys.registers source.reg))
    | .MEM =>
      let totalVal := wrap32 (sys.registers destination.reg + destination.value)
      if totalVal < 0 ∨ totalVal > (MEMORY_SIZE - 1) * 4 then (.MEMORY_ERROR, sys)
      else (.SUCCESS, sys.setData (totalVal.tdiv 4) (sys.registers source.reg))
    | .UNKNOWN => (.INSTRUCTION_ERROR, sys)
  | .CONST =>
    match destination.type with
    | .CONST => (.INSTRUCTION_ERROR, sys)
    | .REG => (.SUCCESS, sys.setReg destination.reg source.value)
    | .MEM =>
      let totalVal := wrap32 (sys.registers destination.reg + destination.value)
      if totalVal < 0 ∨ totalVal > (MEMORY_SIZE - 1) * 4 then (.MEMORY_ERROR, sys)
      else (.SUCCESS, sys.setData (totalVal.tdiv 4) source.value)
    | .UNKNOWN => (.INSTRUCTION_ERROR, sys)
  | .MEM =>
    match destination.type with
    | .CONST => (.INSTRUCTION_ERROR, sys)
    | .REG =>
      let totalVal := wrap32 (sys.registers source.reg + source.value)
      if totalVal < 0 ∨ totalVal > (MEMORY_SIZE - 1) * 4 then (.MEMORY_ERROR, sys)
      else (.SUCCESS, sys.setReg destination.reg (sys.memory.data (totalVal.tdiv 4)))
    | .MEM => (.INSTRUCTION_ERROR, sys)
    | .UNKNOWN => (.INSTRUCTION_ERROR, sys)
  | .UNKNOWN => (.INSTRUCTION_ERROR, sys)

/-- Source: `execute_addl`. -/
def execute_addl (MEMORY_SIZE : Int) (sys : System) (src dst : String) : ExecResult × System :=
  let source := get_memory_type src
  let destination := get_memory_type dst
  let totalValDest := wrap32 (sys.registers destination.reg + destination.value)
  let totalValSrc := wrap32 (sys.registers source.reg + source.value)
  match destination.type with
  | .REG =>
    match source.type with
    | .CONST =>
      (.SUCCESS, sys.setReg destination.reg (wrap32 (sys.registers destination.reg + source.value)))
    | .MEM =>
      if totalValSrc < 0 ∨ totalValSrc > (MEMORY_SIZE - 1) * 4 then (.MEMORY_ERROR, sys)
      else
        (.SUCCESS, sys.setReg destination.reg
          (wrap32 (sys.registers destination.reg + sys.memory.data (totalValSrc.tdiv 4))))
    | .REG =>
      (.SUCCESS, sys.setReg destination.reg
        (wrap32 (sys.registers destination.reg + sys.registers source.reg)))
    | .UNKNOWN => (.INSTRUCTION_ERROR, sys)
  | .MEM =>
    if totalValDest < 0 ∨ totalValDest > (MEMORY_SIZE - 1) * 4 then (.MEMORY_ERROR, sys)
    else
      match source.type with
      | .CONST =>
        (.SUCCESS, sys.setData (totalValDest.tdiv 4)
          (wrap32 (sys.memory.data (totalValDest.tdiv 4) + source.value)))
      | .MEM => (.INSTRUCTION_ERROR, sys)
      | .REG =>
        (.SUCCESS, sys.setData (totalValDest.tdiv 4)
          (wrap32 (sys.memory.data (totalValDest.tdiv 4) + sys.registers source.reg)))
      | .UNKNOWN => (.INSTRUCTION_ERROR, sys)
  | .CONST => (.INSTRUCTION_ERROR, sys)
  | .UNKNOWN => (.INSTRUCTION_ERROR, sys)

/-- Source: `execute_push`. -/
def execute_push (MEMORY_SIZE : Int) (sys : System) (src : String) : ExecResult × System :=
  let source := get_memory_type src
  let totalValSrc := wrap32 (sys.registers source.reg + source.value)
  if wrap32 (sys.registers .ESP - 4) < 0 ∨ wrap32 (sys.registers .ESP - 4) > (MEMORY_SIZE - 1) * 4 then
    (.MEMORY_ERROR, sys)
  else
    match source.type with
    | .UNKNOWN => (.INSTRUCTION_ERROR, sys)
    | .MEM =>
      if totalValSrc < 0 ∨ totalValSrc > (MEMORY_SIZE - 1) * 4 then (.MEMORY_ERROR, sys)
      else
        let sys1 := sys.setReg .ESP (wrap32 (sys.registers .ESP - 4))
        (.SUCCESS, sys1.setData ((sys1.registers .ESP).tdiv 4) (sys1.memory.data (totalValSrc.tdiv 4)))
    | .REG =>
      let valToCopy := sys.registers source.reg
      let sys1 := sys.setReg .ESP (wrap32 (sys.registers .ESP - 4))
      (.SUCCESS, sys1.setData ((sys1.registers .ESP).tdiv 4) valToCopy)
    | .CONST =>
      let sys1 := sys.setReg .ESP (wrap32 (sys.registers .ESP - 4))
      (.SUCCESS, sys1.setData ((sys1.registers .ESP).tdiv 4) source.value)

/-- Source: `execute_pop`. -/
def execute_pop (MEMORY_SIZE : Int) (sys : System) (dst : String) : ExecResult × System :=
  let destination := get_memory_type dst
  let totalValDest := wrap32 (sys.registers destination.reg + destination.value)
  if wrap32 (sys.registers .ESP + 4) < 0 ∨ wrap32 (sys.registers .ESP + 4) > (MEMORY_SIZE - 1) * 4 then
    (.MEMORY_ERROR, sys)
  else
    match destination.type with
    | .UNKNOWN => (.INSTRUCTION_ERROR, sys)
    | .MEM =>
      if totalValDest < 0 ∨ totalValDest > (MEMORY_SIZE - 1) * 4 then (.MEMORY_ERROR, sys)
      else
        let valToCopy := sys.memory.data ((sys.registers .ESP).tdiv 4)
        let sys1 := sys.setData (totalValDest.tdiv 4) valToCopy
        (.SUCCESS, sys1.setReg .ESP (wrap32 (sys1.registers .ESP + 4)))
    | .REG =>
      let valToCopy := sys.memory.data ((sys.registers .ESP).tdiv 4)
      let sys1 := sys.setReg destination.reg valToCopy
      (.SUCCESS, sys1.setReg .ESP (wrap32 (sys1.registers .ESP + 4)))
    | .CONST => (.INSTRUCTION_ERROR, sys)

/-- The second `switch` of `execute_cmpl` (on the operand decoded from `dst`)
and the final assignment, given the value `val1` the first `switch` found. -/
def execute_cmpl_second (MEMORY_SIZE : Int) (sys : System) (source1 source2 : MemoryType)
    (val1 : Int) : ExecResult × System :=
  let totalValSrc2 := wrap32 (sys.registers source2.reg + source2.value)
  match source2.type with
  | .UNKNOWN => (.INSTRUCTION_ERROR, sys)
  | .MEM =>
    if source1.type = .MEM then (.INSTRUCTION_ERROR, sys)
    else if totalValSrc2 < 0 ∨ totalValSrc2 > (MEMORY_SIZE - 1) * 4 then (.MEMORY_ERROR, sys)
    else (.SUCCESS, sys.setFlag (wrap32 (sys.memory.data (totalValSrc2.tdiv 4) - val1)))
  | .REG => (.SUCCESS, sys.setFlag (wrap32 (sys.registers source2.reg - val1)))
  | .CONST => (.SUCCESS, sys.setFlag (wrap32 (source2.value - val1)))

/-- Source: `execute_cmpl`.  `source2` is decoded from `dst` and `source1`
from `src`, as in the source. -/
def execute_cmpl (MEMORY_SIZE : Int) (sys : System) (src dst : String) : ExecResult × System :=
  let source2 := get_memory_type dst
  let source1 := get_memory_type src
  let totalValSrc1 := wrap32 (sys.registers source1.reg + source1.value)
  match source1.type with
  | .UNKNOWN => (.INSTRUCTION_ERROR, sys)
  | .MEM =>
    if source2.type = .MEM then (.INSTRUCTION_ERROR, sys)
    else if totalValSrc1 < 0 ∨ totalValSrc1 > (MEMORY_SIZE - 1) * 4 then (.MEMORY_ERROR, sys)
    else execute_cmpl_second MEMORY_SIZE sys source1 source2 (sys.memory.data (totalValSrc1.tdiv 4))
  | .REG => execute_cmpl_second MEMORY_SIZE sys source1 source2 (sys.registers source1.reg)
  | .CONST => execute_cmpl_second MEMORY_SIZE sys source1 source2 source1.value

/-! ## Control-transfer executors -/

/-- Source: `execute_jmp`. -/
def execute_jmp (MEMORY_SIZE : Int) (sys : System) (condition dst : String) : ExecResult × System :=
  let memAdd := get_addr_from_label sys dst
  if memAdd < 0 ∨ memAdd > (MEMORY_SIZE - 1) * 4 then (.PC_ERROR, sys)
  else if condition = "JE" then
    if sys.comparison_flag = 0 then
      (.SUCCESS, (sys.setReg .EIP (wrap32 (sys.registers .EIP + 4))).setReg .EIP memAdd)
    else (.SUCCESS, sys.setReg .EIP (wrap32 (sys.registers .EIP + 4)))
  else if condition = "JNE" then
    if sys.comparison_flag > 0 ∨ sys.comparison_flag < 0 then
      (.SUCCESS, (sys.setReg .EIP (wrap32 (sys.registers .EIP + 4))).setReg .EIP memAdd)
    else (.SUCCESS, sys.setReg .EIP (wrap32 (sys.registers .EIP + 4)))
  else if condition = "JL" then
    if sys.comparison_flag < 0 then
      (.SUCCESS, (sys.setReg .EIP (wrap32 (sys.registers .EIP + 4))).setReg .EIP memAdd)
    else (.SUCCESS, sys.setReg .EIP (wrap32 (sys.registers .EIP + 4)))
  else if condition = "JG" then
    if sys.comparison_flag > 0 then
      (.SUCCESS, (sys.setReg .EIP (wrap32 (sys.registers .EIP + 4))).setReg .EIP memAdd)
    else (.SUCCESS, sys.setReg .EIP (wrap32 (sys.registers .EIP + 4)))
  else if condition = "JMP" then
    (.SUCCESS, (sys.setReg .EIP (wrap32 (sys.registers .EIP + 4))).setReg .EIP memAdd)
  else (.PC_ERROR, sys.setReg .EIP (wrap32 (sys.registers .EIP + 4)))

/-- Source: `execute_call`.  The result of the inner `execute_push` is
discarded, as in the source. -/
def execute_call (MEMORY_SIZE : Int) (sys : System) (dst : String) : ExecResult × System :=
  let memAdd := get_addr_from_label sys dst
  if memAdd < 0 ∨ memAdd > (MEMORY_SIZE - 1) * 4 then (.PC_ERROR, sys)
  else
    let sys1 := sys.setReg .EIP (wrap32 (sys.registers .EIP + 4))
    let sys2 := (execute_push MEMORY_SIZE sys1 "%EIP").2
    (.SUCCESS, sys2.setReg .EIP memAdd)

/-- Source: `execute_ret`.  The result of the inner `execute_pop` is
discarded, as in the source. -/
def execute_ret (MEMORY_SIZE : Int) (sys : System) : ExecResult × System :=
  let sys1 := (execute_pop MEMORY_SIZE sys "%EIP").2
  if sys1.registers .EIP < 0 ∨ sys1.registers .EIP > MEMORY_SIZE - 1
      ∨ sys1.registers .EIP > sys1.memory.num_instructions then
    (.PC_ERROR, sys1)
  else (.SUCCESS, sys1)

/-! ## Line utilities and the fetch-execute loop -/

/-- The copying loop of `reformat`: `flag` records that the last character
kept was a space. -/
def reformat_loop : List Char → Bool → List Char
  | [], _ => []
  | c :: cs, flag =>
    if c = '\n' then []
    else if c = ' ' then
      if !flag then ' ' :: reformat_loop cs true else reformat_loop cs flag
    else c :: reformat_loop cs false

/-- The counter `size` of `reformat` along the same loop: it starts from
`size` and goes up by one at each character the loop keeps. -/
def reformat_size : List Char → Bool → Int → Int
  | [], _, size => size
  | c :: cs, flag, size =>
    if c = '\n' then size
    else if c = ' ' then
      if !flag then reformat_size cs true (size + 1) else reformat_size cs flag size
    else reformat_size cs false (size + 1)

/-- Source: `reformat`.  Returns the string left in the buffer (the kept
characters, closed by the final `line[size] = 0`) and the returned `size`. -/
def reformat (line : String) : String × Int :=
  let input := line.toList.dropWhile (fun c => c = ' ')
  (String.mk (reformat_loop input false), reformat_size input false 0)

/-- The successive `strtok(.., " ")` tokens of a buffer: its maximal runs of
characters other than the space.  `cur` is the token being read, reversed. -/
def strtok_all : List Char → List Char → List (List Char)
  | cur, [] => if cur.isEmpty then [] else [cur.reverse]
  | cur, c :: cs =>
    if c = ' ' then
      if cur.isEmpty then strtok_all [] cs else cur.reverse :: strtok_all [] cs
    else strtok_all (c :: cur) cs

/-- Source: `splitString`.  The input is cut to the 99 characters that fit
`temp`; a missing token is the empty string. -/
def splitString (input : String) : String × String × String :=
  let tokens := strtok_all [] (input.toList.take 99)
  (String.mk (tokens.getD 0 []), String.mk (tokens.getD 1 []), String.mk (tokens.getD 2 []))

/-- Outcome of one iteration of the loop of `execute_instructions`: the loop
goes on with a new state, leaves through `break`, or fetches no line (the
slot is `NULL` or outside the store, which the C code dereferences). -/
inductive StepResult where
  | running (sys : System)
  | halted (sys : System)
  | fault

/-- The state after `sys->registers[EIP] += 4`. -/
def System.advance (sys : System) : System :=
  sys.setReg .EIP (wrap32 (sys.registers .EIP + 4))

/-- One iteration of the loop of `execute_instructions`. -/
def execute_step (MEMORY_SIZE : Int) (sys : System) : StepResult :=
  let idx := (sys.registers .EIP).tdiv 4
  if idx < 0 then .fault
  else
    match sys.memory.instruction.get? idx.toNat with
    | none => .fault
    | some line =>
      let (part1, part2, part3) := splitString line
      if part1 = "MOVL" then .running (execute_movl MEMORY_SIZE sys part2 part3).2.advance
      else if part1 = "ADDL" then .running (execute_addl MEMORY_SIZE sys part2 part3).2.advance
      else if part1 = "PUSHL" then .running (execute_push MEMORY_SIZE sys part2).2.advance
      else if part1 = "POPL" then .running (execute_pop MEMORY_SIZE sys part2).2.advance
      else if part1 = "CMPL" then .running (execute_cmpl MEMORY_SIZE sys part2 part3).2.advance
      else if part1 = "CALL" then .running (execute_call MEMORY_SIZE sys part2).2
      else if part1 = "RET" then .running (execute_ret MEMORY_SIZE sys).2
      else if part1 = "JMP" ∨ part1 = "JNE" ∨ part1 = "JE" ∨ part1 = "JL" ∨ part1 = "JG" then
        .running (execute_jmp MEMORY_SIZE sys part1 part2).2
      else if part1 = "END" then .halted sys
      else .running sys.advance

/-- Source: `execute_instructions`, with a bound on the number of iterations:
the state at the `break`, or `none` when the loop faults or is still running
after `fuel` iterations. -/
def execute_instructions (MEMORY_SIZE : Int) : Nat → System → Option System
  | 0, _ => none
  | fuel + 1, sys =>
    match execute_step MEMORY_SIZE sys with
    | .running sys1 => execute_instructions MEMORY_SIZE fuel sys1
    | .halted sys1 => some sys1
    | .fault => none

/-! ## Vocabulary of the statements -/

/-- The byte address `registers[m.reg] + m.value` an executor computes for a
memory operand. -/
def address (sys : System) (m : MemoryType) : Int :=
  wrap32 (sys.registers m.reg + m.value)

/-- The address test of the executors: `0 <= a <= (MEMORY_SIZE - 1) * 4`. -/
def valid_address (MEMORY_SIZE : Int) (a : Int) : Prop :=
  0 ≤ a ∧ a ≤ (MEMORY_SIZE - 1) * 4

instance (MEMORY_SIZE a : Int) : Decidable (valid_address MEMORY_SIZE a) := by
  unfold valid_address; infer_instance

/-- Value of a decoded operand in a state: a register's contents, a
constant's literal, the data word at a memory operand's address. -/
def operand_value (sys : System) (m : MemoryType) : Int :=
  match m.type with
  | .REG => sys.registers m.reg
  | .CONST => m.value
  | .MEM => sys.memory.data ((address sys m).tdiv 4)
  | .UNKNOWN => 0

/-- An operand an executor can read: a register, a constant, or a memory
operand whose address passes the address test. -/
def readable (MEMORY_SIZE : Int) (sys : System) (m : MemoryType) : Prop :=
  m.type = .REG ∨ m.type = .CONST ∨ (m.type = .MEM ∧ valid_address MEMORY_SIZE (address sys m))

/-- An operand an executor can write: a register, or a memory operand whose
address passes the address test. -/
def writable (MEMORY_SIZE : Int) (sys : System) (m : MemoryType) : Prop :=
  m.type = .REG ∨ (m.type = .MEM ∧ valid_address MEMORY_SIZE (address sys m))

/-- Every register, data word and the comparison flag holds a 32-bit value. -/
def System.in_range (sys : System) : Prop :=
  (∀ r, -2147483648 ≤ sys.registers r ∧ sys.registers r ≤ 2147483647)
  ∧ (∀ i, -2147483648 ≤ sys.memory.data i ∧ sys.memory.data i ≤ 2147483647)
  ∧ -2147483648 ≤ sys.comparison_flag ∧ sys.comparison_flag ≤ 2147483647

/-- A sample machine: registers and data all zero except the stack and base
pointers, as `MEMORY_SIZE = 1024` would seed them, and an empty store. -/
def sample_system : System :=
  { registers := fun r => if r = .ESP ∨ r = .EBP then 768 else 0
    memory := { instruction := [], data := fun _ => 0 }
    comparison_flag := 0 }

/-- A machine whose stack pointer is `4 * 1024`, one slot above the last data
word of a 1024-word memory; everything else is zero. -/
def top_of_memory_system : System :=
  { registers := fun r => if r = .ESP then 4096 else 0
    memory := { instruction := [], data := fun _ => 0 }
    comparison_flag := 0 }

/-- A machine whose store holds a jump, the label `.L` and the end marker;
registers and data as in `sample_system`. -/
def label_system : System :=
  { registers := fun r => if r = .ESP ∨ r = .EBP then 768 else 0
    memory := { instruction := ["JMP .L", ".L", "END"], data := fun _ => 0 }
    comparison_flag := 0 }

/-- A machine with an exhausted stack: `ESP = 0`, every other register and
every data word zero, and the store `CALL .L` / `.L` / `RET`. -/
def empty_stack_system : System :=
  { registers := fun _ => 0
    memory := { instruction := ["CALL .L", ".L", "RET"], data := fun _ => 0 }
    comparison_flag := 0 }

/-- A machine about to return from a call: the store is
`MOVL $1 %EAX` / `CALL .F` / `END` / `.F` / `RET`, the call in slot 1 has
pushed its return address 8 (data word 191, `ESP = 764`) and `EIP = 16`
points at `RET`; every other register and word is zero. -/
def return_system : System :=
  { registers := fun r => if r = .ESP then 764 else if r = .EIP then 16 else 0
    memory := { instruction := ["MOVL $1 %EAX", "CALL .F", "END", ".F", "RET"],
                data := fun i => if i = 191 then 8 else 0 }
    comparison_flag := 0 }

/-- A machine whose stack pointer is the address of the last data word of a
1024-word memory, `(1024 - 1) * 4`; everything else is zero. -/
def last_word_system : System :=
  { registers := fun r => if r = .ESP then 4092 else 0
    memory := { instruction := [], data := fun _ => 0 }
    comparison_flag := 0 }

/-- A machine whose stack pointer is -4, one slot below data word 0;
everything else is zero. -/
def below_memory_system : System :=
  { registers := fun r => if r = .ESP then -4 else 0
    memory := { instruction := [], data := fun _ => 0 }
    comparison_flag := 0 }

/-- The three-line program of chained moves. -/
def chained_moves_program : List String :=
  ["MOVL %EDX %EAX", "MOVL %ECX %EDX", "END"]

/-- A machine loaded with `chained_moves_program`, `EIP = 0`, `EDX = 5`,
`ECX = 7`, the stack and base pointers at 768 and everything else zero. -/
def chained_moves_system : System :=
  { registers := fun r =>
      if r = .EDX then 5 else if r = .ECX then 7
      else if r = .ESP ∨ r = .EBP then 768 else 0
    memory := { instruction := chained_moves_program, data := fun _ => 0 }
    comparison_flag := 0 }

/-- The thirteen mnemonics the loop of `execute_instructions` recognises. -/
def recognised_mnemonics : List String :=
  ["MOVL", "ADDL", "PUSHL", "POPL", "CMPL", "CALL", "RET", "JMP", "JNE", "JE", "JL", "JG", "END"]

/-- A machine whose `EAX` holds the least 32-bit value and whose `EDX` holds
1; the store compares them and jumps to the label `.L` in slot 2; the stack
and base pointers are at 768 and everything else is zero. -/
def overflow_compare_system : System :=
  { registers := fun r =>
      if r = .EAX then -2147483648 else if r = .EDX then 1
      else if r = .ESP ∨ r = .EBP then 768 else 0
    memory := { instruction := ["CMPL %EDX %EAX", "JL .L", ".L", "END"], data := fun _ => 0 }
    comparison_flag := 0 }

/-- The executor the loop runs for a line, applied without the advance of the
program counter and with its result dropped: the data executors for MOVL,
ADDL, PUSHL, POPL and CMPL, nothing for any other first token. -/
def execute_line (MEMORY_SIZE : Int) (sys : System) (line : String) : System :=
  if (splitString line).1 = "MOVL" then
    (execute_movl MEMORY_SIZE sys (splitString line).2.1 (splitString line).2.2).2
  else if (splitString line).1 = "ADDL" then
    (execute_addl MEMORY_SIZE sys (splitString line).2.1 (splitString line).2.2).2
  else if (splitString line).1 = "PUSHL" then
    (execute_push MEMORY_SIZE sys (splitString line).2.1).2
  else if (splitString line).1 = "POPL" then
    (execute_pop MEMORY_SIZE sys (splitString line).2.1).2
  else if (splitString line).1 = "CMPL" then
    (execute_cmpl MEMORY_SIZE sys (splitString line).2.1 (splitString line).2.2).2
  else sys

/-- An operand token that names the program counter: it decodes to the
register `EIP` or to a memory operand based on `EIP`. -/
def names_eip (tok : String) : Prop := (get_memory_type tok).reg = .EIP

instance (tok : String) : Decidable (names_eip tok) := by
  unfold names_eip; infer_instance

/-- A straight-line line: its first token is no control-transfer mnemonic and
not the end marker, and no operand its executor uses names the program
counter. -/
def straight_line (line : String) : Prop :=
  (splitString line).1 ∉ ["CALL", "RET", "JMP", "JNE", "JE", "JL", "JG", "END"]
  ∧ (((splitString line).1 = "MOVL" ∨ (splitString line).1 = "ADDL"
        ∨ (splitString line).1 = "CMPL") →
      ¬ names_eip (splitString line).2.1 ∧ ¬ names_eip (splitString line).2.2)
  ∧ (((splitString line).1 = "PUSHL" ∨ (splitString line).1 = "POPL") →
      ¬ names_eip (splitString line).2.1)

instance (line : String) : Decidable (straight_line line) := by
  unfold straight_line; infer_instance

/-- A machine loaded with `NOP` / `MOVL %EIP %EAX` / `END`, `EIP = 0`, the
stack and base pointers at 768 and everything else zero. -/
def read_eip_system : System :=
  { registers := fun r => if r = .ESP ∨ r = .EBP then 768 else 0
    memory := { instruction := ["NOP", "MOVL %EIP %EAX", "END"], data := fun _ => 0 }
    comparison_flag := 0 }

/-- A machine loaded with `ADDL $3 %EAX` / `END`, `EIP = 0`, `EAX = 0`, the
stack and base pointers at 768 and everything else zero. -/
def add_three_system : System :=
  { registers := fun r => if r = .ESP ∨ r = .EBP then 768 else 0
    memory := { instruction := ["ADDL $3 %EAX", "END"], data := fun _ => 0 }
    comparison_flag := 0 }

/-- The first whitespace-separated token of a line, in the words of the
claims: the characters after the leading white space up to the next white
space (empty when the line holds nothing else). -/
def first_token (line : String) : String :=
  String.mk ((line.toList.dropWhile isspace).takeWhile (fun c => !isspace c))

/-- C1. Error atomicity of the data executors: when `execute_movl`,
`execute_addl`, `execute_push`, `execute_pop` or `execute_cmpl` returns a
result other than `SUCCESS`, the state it leaves (registers, data words,
instruction store, comparison flag) is the state it was given. -/
theorem data_executors_error_atomic (MEMORY_SIZE : Int) (sys : System) (src dst : String) :
    ((execute_movl MEMORY_SIZE sys src dst).1 ≠ .SUCCESS →
        (execute_movl MEMORY_SIZE sys src dst).2 = sys)
    ∧ ((execute_addl MEMORY_SIZE sys src dst).1 ≠ .SUCCESS →
        (execute_addl MEMORY_SIZE sys src dst).2 = sys)
    ∧ ((execute_push MEMORY_SIZE sys src).1 ≠ .SUCCESS →
        (execute_push MEMORY_SIZE sys src).2 = sys)
    ∧ ((execute_pop MEMORY_SIZE sys dst).1 ≠ .SUCCESS →
        (execute_pop MEMORY_SIZE sys dst).2 = sys)
    ∧ ((execute_cmpl MEMORY_SIZE sys src dst).1 ≠ .SUCCESS →
        (execute_cmpl MEMORY_SIZE sys src dst).2 = sys) := by
  refine ⟨?_, ?_, ?_, ?_, ?_⟩
  · unfold execute_movl
    generalize get_memory_type src = s
    generalize get_memory_type dst = d
    rcases s with ⟨st, sr, sv⟩
    rcases d with ⟨dt, dr, dv⟩
    cases st <;> cases dt <;> simp <;> split_ifs <;> simp
  · unfold execute_addl
    generalize get_memory_type src = s
    generalize get_memory_type dst = d
    rcases s with ⟨st, sr, sv⟩
    rcases d with ⟨dt, dr, dv⟩
    cases st <;> cases dt <;> simp <;> split_ifs <;> simp
  · unfold execute_push
    generalize get_memory_type src = s
    rcases s with ⟨st, sr, sv⟩
    cases st <;> simp <;> split_ifs <;> simp
  · unfold execute_pop
    generalize get_memory_type dst = d
    rcases d with ⟨dt, dr, dv⟩
    cases dt <;> simp <;> split_ifs <;> simp
  · unfold execute_cmpl execute_cmpl_second
    generalize get_memory_type src = s
    generalize get_memory_type dst = d
    rcases s with ⟨st, sr, sv⟩
    rcases d with ⟨dt, dr, dv⟩
    cases st <;> cases dt <;> simp <;> split_ifs <;> simp

/-- Witness for C1: on the sample machine with operands `x` (invalid) and
`$1` (constant) all five executors fail and return the machine untouched. -/
theorem data_executors_error_atomic_witness :
    ((execute_movl 1024 sample_system "x" "$1").1 ≠ .SUCCESS
        ∧ (execute_movl 1024 sample_system "x" "$1").2 = sample_system)
    ∧ ((execute_addl 1024 sample_system "x" "$1").1 ≠ .SUCCESS
        ∧ (execute_addl 1024 sample_system "x" "$1").2 = sample_system)
    ∧ ((execute_push 1024 sample_system "x").1 ≠ .SUCCESS
        ∧ (execute_push 1024 sample_system "x").2 = sample_system)
    ∧ ((execute_pop 1024 sample_system "$1").1 ≠ .SUCCESS
        ∧ (execute_pop 1024 sample_system "$1").2 = sample_system)
    ∧ ((execute_cmpl 1024 sample_system "x" "$1").1 ≠ .SUCCESS
        ∧ (execute_cmpl 1024 sample_system "x" "$1").2 = sample_system) :=
  have h := data_executors_error_atomic 1024 sample_system "x" "$1"
  ⟨⟨by decide, h.1 (by decide)⟩, ⟨by decide, h.2.1 (by decide)⟩,
   ⟨by decide, h.2.2.1 (by decide)⟩, ⟨by decide, h.2.2.2.1 (by decide)⟩,
   ⟨by decide, h.2.2.2.2 (by decide)⟩⟩

/-- C2. Move copies src to dst and nothing else: for operands of kinds
(reg,reg), (reg,mem), (const,reg), (const,mem) or (mem,reg) whose memory
address passes the address test, `execute_movl` returns `SUCCESS`, the
destination (the register, or the data word at index address/4) then holds
the value of the source in the pre-call state, and every other register,
every other data word, the comparison flag and the store are unchanged. -/
theorem movl_copies_src_to_dst (MEMORY_SIZE : Int) (sys : System) (src dst : String)
    (s d : MemoryType) (hs : get_memory_type src = s) (hd : get_memory_type dst = d)
    (res : ExecResult) (sys' : System)
    (hrun : execute_movl MEMORY_SIZE sys src dst = (res, sys'))
    (hkinds :
      (s.type = .REG ∧ d.type = .REG)
      ∨ (s.type = .REG ∧ d.type = .MEM ∧ valid_address MEMORY_SIZE (address sys d))
      ∨ (s.type = .CONST ∧ d.type = .REG)
      ∨ (s.type = .CONST ∧ d.type = .MEM ∧ valid_address MEMORY_SIZE (address sys d))
      ∨ (s.type = .MEM ∧ d.type = .REG ∧ valid_address MEMORY_SIZE (address sys s))) :
    res = .SUCCESS
    ∧ (d.type = .REG →
        sys'.registers d.reg = operand_value sys s
        ∧ (∀ r, r ≠ d.reg → sys'.registers r = sys.registers r)
        ∧ (∀ i, sys'.memory.data i = sys.memory.data i))
    ∧ (d.type = .MEM →
        sys'.memory.data ((address sys d).tdiv 4) = operand_value sys s
        ∧ (∀ i, i ≠ (address sys d).tdiv 4 → sys'.memory.data i = sys.memory.data i)
        ∧ (∀ r, sys'.registers r = sys.registers r))
    ∧ sys'.comparison_flag = sys.comparison_flag
    ∧ sys'.memory.instruction = sys.memory.instruction := by
  subst hs hd
  unfold execute_movl at hrun
  unfold valid_address address at hkinds
  rcases hkinds with ⟨h1, h2⟩ | ⟨h1, h2, h3, h4⟩ | ⟨h1, h2⟩ | ⟨h1, h2, h3, h4⟩ | ⟨h1, h2, h3, h4⟩
  · simp only [h1, h2] at hrun
    obtain ⟨rfl, rfl⟩ := Prod.mk.inj hrun
    simp [h1, h2, operand_value, System.setReg]
    intro r hr
    exact Function.update_noteq hr _ _
  · have hc : ¬ (wrap32 (sys.registers (get_memory_type dst).reg + (get_memory_type dst).value) < 0
        ∨ wrap32 (sys.registers (get_memory_type dst).reg + (get_memory_type dst).value)
            > (MEMORY_SIZE - 1) * 4) := by
      intro h; rcases h with h | h <;> omega
    simp only [h1, h2, hc, if_false] at hrun
    obtain ⟨rfl, rfl⟩ := Prod.mk.inj hrun
    simp [h1, h2, operand_value, System.setData, address]
    intro i hi
    exact Function.update_noteq hi _ _
  · simp only [h1, h2] at hrun
    obtain ⟨rfl, rfl⟩ := Prod.mk.inj hrun
    simp [h1, h2, operand_value, System.setReg]
    intro r hr
    exact Function.update_noteq hr _ _
  · have hc : ¬ (wrap32 (sys.registers (get_memory_type dst).reg + (get_memory_type dst).value) < 0
        ∨ wrap32 (sys.registers (get_memory_type dst).reg + (get_memory_type dst).value)
            > (MEMORY_SIZE - 1) * 4) := by
      intro h; rcases h with h | h <;> omega
    simp only [h1, h2, hc, if_false] at hrun
    obtain ⟨rfl, rfl⟩ := Prod.mk.inj hrun
    simp [h1, h2, operand_value, System.setData, address]
    intro i hi
    exact Function.update_noteq hi _ _
  · have hc : ¬ (wrap32 (sys.registers (get_memory_type src).reg + (get_memory_type src).value) < 0
        ∨ wrap32 (sys.registers (get_memory_type src).reg + (get_memory_type src).value)
            > (MEMORY_SIZE - 1) * 4) := by
      intro h; rcases h with h | h <;> omega
    simp only [h1, h2, hc, if_false] at hrun
    obtain ⟨rfl, rfl⟩ := Prod.mk.inj hrun
    simp [h1, h2, operand_value, System.setReg, address]
    intro r hr
    exact Function.update_noteq hr _ _

/-- Witness for C2: moving `$10` into `%EAX` on the sample machine succeeds
and sets `EAX` to exactly 10, every other register keeping its value. -/
theorem movl_copies_src_to_dst_witness :
    (execute_movl 1024 sample_system "$10" "%EAX").1 = .SUCCESS
    ∧ (execute_movl 1024 sample_system "$10" "%EAX").2.registers .EAX = 10
    ∧ (∀ r, r ≠ .EAX →
        (execute_movl 1024 sample_system "$10" "%EAX").2.registers r = sample_system.registers r) :=
  have h := movl_copies_src_to_dst 1024 sample_system "$10" "%EAX"
    ⟨.CONST, .NOT_REG, 10⟩ ⟨.REG, .EAX, -1⟩ (by decide) (by decide)
    (execute_movl 1024 sample_system "$10" "%EAX").1
    (execute_movl 1024 sample_system "$10" "%EAX").2 rfl
    (Or.inr (Or.inr (Or.inl ⟨rfl, rfl⟩)))
  ⟨h.1, (h.2.1 rfl).1, (h.2.1 rfl).2.1⟩

/-- C3. Add accumulates into dst: for a destination that is a register or an
in-range memory operand and a source that is a register, a constant or an
in-range memory operand (memory,memory excluded), `execute_addl` returns
`SUCCESS` and the destination then holds its old value plus the value of the
source in the pre-call state, reduced to 32 bits (also when source and
destination are the same register); every other register, every other data
word, the comparison flag and the store are unchanged. -/
theorem addl_accumulates_into_dst (MEMORY_SIZE : Int) (sys : System) (src dst : String)
    (s d : MemoryType) (hs : get_memory_type src = s) (hd : get_memory_type dst = d)
    (res : ExecResult) (sys' : System)
    (hrun : execute_addl MEMORY_SIZE sys src dst = (res, sys'))
    (hdst : writable MEMORY_SIZE sys d) (hsrc : readable MEMORY_SIZE sys s)
    (hmm : ¬ (s.type = .MEM ∧ d.type = .MEM)) :
    res = .SUCCESS
    ∧ (d.type = .REG →
        sys'.registers d.reg = wrap32 (sys.registers d.reg + operand_value sys s)
        ∧ (∀ r, r ≠ d.reg → sys'.registers r = sys.registers r)
        ∧ (∀ i, sys'.memory.data i = sys.memory.data i))
    ∧ (d.type = .MEM →
        sys'.memory.data ((address sys d).tdiv 4)
          = wrap32 (sys.memory.data ((address sys d).tdiv 4) + operand_value sys s)
        ∧ (∀ i, i ≠ (address sys d).tdiv 4 → sys'.memory.data i = sys.memory.data i)
        ∧ (∀ r, sys'.registers r = sys.registers r))
    ∧ sys'.comparison_flag = sys.comparison_flag
    ∧ sys'.memory.instruction = sys.memory.instruction := by
  subst hs hd
  unfold execute_addl at hrun
  unfold writable valid_address address at hdst
  unfold readable valid_address address at hsrc
  rcases hdst with h2 | ⟨h2, h3, h4⟩
  · rcases hsrc with h1 | h1 | ⟨h1, h5, h6⟩
    · simp only [h1, h2] at hrun
      obtain ⟨rfl, rfl⟩ := Prod.mk.inj hrun
      simp [h1, h2, operand_value, System.setReg]
      intro r hr
      exact Function.update_noteq hr _ _
    · simp only [h1, h2] at hrun
      obtain ⟨rfl, rfl⟩ := Prod.mk.inj hrun
      simp [h1, h2, operand_value, System.setReg]
      intro r hr
      exact Function.update_noteq hr _ _
    · have hc : ¬ (wrap32 (sys.registers (get_memory_type src).reg + (get_memory_type src).value) < 0
          ∨ wrap32 (sys.registers (get_memory_type src).reg + (get_memory_type src).value)
              > (MEMORY_SIZE - 1) * 4) := by
        intro h; rcases h with h | h <;> omega
      simp only [h1, h2, hc, if_false] at hrun
      obtain ⟨rfl, rfl⟩ := Prod.mk.inj hrun
      simp [h1, h2, operand_value, System.setReg, address]
      intro r hr
      exact Function.update_noteq hr _ _
  · have hc : ¬ (wrap32 (sys.registers (get_memory_type dst).reg + (get_memory_type dst).value) < 0
        ∨ wrap32 (sys.registers (get_memory_type dst).reg + (get_memory_type dst).value)
            > (MEMORY_SIZE - 1) * 4) := by
      intro h; rcases h with h | h <;> omega
    rcases hsrc with h1 | h1 | ⟨h1, _, _⟩
    · simp only [h1, h2, hc, if_false] at hrun
      obtain ⟨rfl, rfl⟩ := Prod.mk.inj hrun
      simp [h1, h2, operand_value, System.setData, address]
      intro i hi
      exact Function.update_noteq hi _ _
    · simp only [h1, h2, hc, if_false] at hrun
      obtain ⟨rfl, rfl⟩ := Prod.mk.inj hrun
      simp [h1, h2, operand_value, System.setData, address]
      intro i hi
      exact Function.update_noteq hi _ _
    · exact absurd ⟨h1, h2⟩ hmm

/-- Witness for C3: `ADDL %ESP %ESP` on the sample machine (source and
destination the same register, holding 768) succeeds and leaves 1536. -/
theorem addl_accumulates_into_dst_witness :
    (execute_addl 1024 sample_system "%ESP" "%ESP").1 = .SUCCESS
    ∧ (execute_addl 1024 sample_system "%ESP" "%ESP").2.registers .ESP = 1536 :=
  have h := addl_accumulates_into_dst 1024 sample_system "%ESP" "%ESP"
    ⟨.REG, .ESP, -1⟩ ⟨.REG, .ESP, -1⟩ (by decide) (by decide)
    (execute_addl 1024 sample_system "%ESP" "%ESP").1
    (execute_addl 1024 sample_system "%ESP" "%ESP").2 rfl
    (Or.inl rfl) (Or.inl rfl) (by decide)
  ⟨h.1, (h.2.1 rfl).1.trans (by decide)⟩

/-- Reduction to 32 bits leaves a 32-bit value alone. -/
theorem wrap32_of_in_range (x : Int) (h1 : -2147483648 ≤ x) (h2 : x ≤ 2147483647) :
    wrap32 x = x := by
  unfold wrap32; omega

/-- Subtracting 4 and adding 4 again, each reduced to 32 bits, gives back a
32-bit value. -/
theorem wrap32_sub_add (x : Int) (h1 : -2147483648 ≤ x) (h2 : x ≤ 2147483647) :
    wrap32 (wrap32 (x - 4) + 4) = x := by
  unfold wrap32; omega

/-- Push then pop through a token that decodes to a register other than the
stack pointer. -/
theorem push_pop_register (MEMORY_SIZE : Int) (sys : System) (tok : String)
    (r : RegisterName) (v : Int) (htok : get_memory_type tok = ⟨.REG, r, v⟩)
    (hr : r ≠ .ESP)
    (h1 : -2147483648 ≤ sys.registers .ESP) (h2 : sys.registers .ESP ≤ 2147483647)
    (hsp : valid_address MEMORY_SIZE (sys.registers .ESP))
    (hpush : (execute_push MEMORY_SIZE sys tok).1 = .SUCCESS) :
    (execute_pop MEMORY_SIZE (execute_push MEMORY_SIZE sys tok).2 tok).1 = .SUCCESS
    ∧ (execute_pop MEMORY_SIZE (execute_push MEMORY_SIZE sys tok).2 tok).2.registers r
        = sys.registers r
    ∧ (execute_pop MEMORY_SIZE (execute_push MEMORY_SIZE sys tok).2 tok).2.registers .ESP
        = sys.registers .ESP := by
  unfold valid_address at hsp
  have hw := wrap32_sub_add (sys.registers .ESP) h1 h2
  have hne : RegisterName.ESP ≠ r := fun h => hr h.symm
  have hc : ¬ (wrap32 (sys.registers .ESP - 4) < 0
      ∨ wrap32 (sys.registers .ESP - 4) > (MEMORY_SIZE - 1) * 4) := by
    intro hc
    unfold execute_push at hpush
    simp [hc] at hpush
  have hc2 : ¬ (sys.registers .ESP < 0 ∨ sys.registers .ESP > (MEMORY_SIZE - 1) * 4) := by
    intro h; rcases h with h | h <;> omega
  unfold execute_pop execute_push
  simp only [htok, if_neg hc, System.setReg, System.setData, Function.update_same, hw]
  simp [hc2, hw, Function.update_noteq hne, Function.update_noteq hr]

/-- Push then pop of the stack pointer itself: the popped value is written to
`ESP` first and the pop's `+= 4` is applied to it afterwards. -/
theorem push_pop_stack_pointer (MEMORY_SIZE : Int) (sys : System)
    (h1 : -2147483648 ≤ sys.registers .ESP) (h2 : sys.registers .ESP ≤ 2147483647)
    (hsp : valid_address MEMORY_SIZE (sys.registers .ESP))
    (hpush : (execute_push MEMORY_SIZE sys "%ESP").1 = .SUCCESS) :
    (execute_pop MEMORY_SIZE (execute_push MEMORY_SIZE sys "%ESP").2 "%ESP").1 = .SUCCESS
    ∧ (execute_pop MEMORY_SIZE (execute_push MEMORY_SIZE sys "%ESP").2 "%ESP").2.registers .ESP
        = wrap32 (sys.registers .ESP + 4) := by
  unfold valid_address at hsp
  have hw := wrap32_sub_add (sys.registers .ESP) h1 h2
  have htok : get_memory_type "%ESP" = ⟨.REG, .ESP, -1⟩ := by decide
  have hc : ¬ (wrap32 (sys.registers .ESP - 4) < 0
      ∨ wrap32 (sys.registers .ESP - 4) > (MEMORY_SIZE - 1) * 4) := by
    intro hc
    unfold execute_push at hpush
    simp [hc] at hpush
  have hc2 : ¬ (sys.registers .ESP < 0 ∨ sys.registers .ESP > (MEMORY_SIZE - 1) * 4) := by
    intro h; rcases h with h | h <;> omega
  unfold execute_pop execute_push
  simp only [htok, if_neg hc, System.setReg, System.setData, Function.update_same, hw]
  simp [hc2, hw]

/-- C4, counterexample. On the sample machine (`ESP = 768`) push and pop of
`%ESP` both succeed and leave `ESP = 772`, not 768; and with `ESP = 4096`
(`MEMORY_SIZE = 1024`) the push of `%EAX` succeeds while the pop that follows
returns `MEMORY_ERROR`. -/
theorem push_pop_round_trip_counterexample :
    ((execute_push 1024 sample_system "%ESP").1 = .SUCCESS
      ∧ (execute_pop 1024 (execute_push 1024 sample_system "%ESP").2 "%ESP").1 = .SUCCESS
      ∧ sample_system.registers .ESP = 768
      ∧ (execute_pop 1024 (execute_push 1024 sample_system "%ESP").2 "%ESP").2.registers .ESP = 772)
    ∧ ((execute_push 1024 top_of_memory_system "%EAX").1 = .SUCCESS
      ∧ (execute_pop 1024 (execute_push 1024 top_of_memory_system "%EAX").2 "%EAX").1
          = .MEMORY_ERROR) := by
  refine ⟨⟨?_, ?_, ?_, ?_⟩, ?_, ?_⟩ <;> decide

/-- C4, amended. For each of the five registers R other than `%ESP` and every
machine state of 32-bit values whose stack pointer is a valid address
(`0 <= ESP <= (MEMORY_SIZE-1)*4`) and in which `execute_push(R)` returns
`SUCCESS`, the following `execute_pop(R)` returns `SUCCESS` and leaves R and
`ESP` at their values before the push.  For R = `%ESP` the pop succeeds too,
and leaves `ESP` at its value before the push plus 4. -/
theorem push_pop_round_trip (MEMORY_SIZE : Int) (sys : System) (R : String)
    (hR : R = "%EAX" ∨ R = "%EDX" ∨ R = "%ECX" ∨ R = "%ESP" ∨ R = "%EBP" ∨ R = "%EIP")
    (hin : sys.in_range)
    (hsp : valid_address MEMORY_SIZE (sys.registers .ESP))
    (hpush : (execute_push MEMORY_SIZE sys R).1 = .SUCCESS) :
    (execute_pop MEMORY_SIZE (execute_push MEMORY_SIZE sys R).2 R).1 = .SUCCESS
    ∧ (R ≠ "%ESP" →
        (execute_pop MEMORY_SIZE (execute_push MEMORY_SIZE sys R).2 R).2.registers
            (get_register_by_name R) = sys.registers (get_register_by_name R)
        ∧ (execute_pop MEMORY_SIZE (execute_push MEMORY_SIZE sys R).2 R).2.registers .ESP
            = sys.registers .ESP)
    ∧ (R = "%ESP" →
        (execute_pop MEMORY_SIZE (execute_push MEMORY_SIZE sys R).2 R).2.registers .ESP
            = wrap32 (sys.registers .ESP + 4)) := by
  have h1 := (hin.1 .ESP).1
  have h2 := (hin.1 .ESP).2
  rcases hR with rfl | rfl | rfl | rfl | rfl | rfl
  · have h := push_pop_register MEMORY_SIZE sys "%EAX" .EAX (-1) (by decide) (by decide)
      h1 h2 hsp hpush
    exact ⟨h.1, fun _ => ⟨h.2.1, h.2.2⟩, fun hc => absurd hc (by decide)⟩
  · have h := push_pop_register MEMORY_SIZE sys "%EDX" .EDX (-1) (by decide) (by decide)
      h1 h2 hsp hpush
    exact ⟨h.1, fun _ => ⟨h.2.1, h.2.2⟩, fun hc => absurd hc (by decide)⟩
  · have h := push_pop_register MEMORY_SIZE sys "%ECX" .ECX (-1) (by decide) (by decide)
      h1 h2 hsp hpush
    exact ⟨h.1, fun _ => ⟨h.2.1, h.2.2⟩, fun hc => absurd hc (by decide)⟩
  · have h := push_pop_stack_pointer MEMORY_SIZE sys h1 h2 hsp hpush
    exact ⟨h.1, fun hc => absurd rfl hc, fun _ => h.2⟩
  · have h := push_pop_register MEMORY_SIZE sys "%EBP" .EBP (-1) (by decide) (by decide)
      h1 h2 hsp hpush
    exact ⟨h.1, fun _ => ⟨h.2.1, h.2.2⟩, fun hc => absurd hc (by decide)⟩
  · have h := push_pop_register MEMORY_SIZE sys "%EIP" .EIP (-1) (by decide) (by decide)
      h1 h2 hsp hpush
    exact ⟨h.1, fun _ => ⟨h.2.1, h.2.2⟩, fun hc => absurd hc (by decide)⟩

/-- Witness for C4 (amended): on the sample machine, push then pop of `%EAX`
succeeds and restores `EAX` and `ESP`. -/
theorem push_pop_round_trip_witness :
    (execute_pop 1024 (execute_push 1024 sample_system "%EAX").2 "%EAX").1 = .SUCCESS
    ∧ (execute_pop 1024 (execute_push 1024 sample_system "%EAX").2 "%EAX").2.registers .EAX
        = sample_system.registers .EAX
    ∧ (execute_pop 1024 (execute_push 1024 sample_system "%EAX").2 "%EAX").2.registers .ESP
        = sample_system.registers .ESP :=
  have hin : sample_system.in_range := by
    refine ⟨fun r => ?_, fun i => ?_, ?_, ?_⟩
    · cases r <;> decide
    · simp [sample_system]
    · decide
    · decide
  have h := push_pop_round_trip 1024 sample_system "%EAX" (Or.inl rfl) hin
    (by decide) (by decide)
  ⟨h.1, (h.2.1 (by decide)).1, (h.2.1 (by decide)).2⟩

/-- C5, counterexample. On the sample machine (`ESP = 768`), `execute_cmpl`
with `$5` in the source position and `%ESP` in the destination position
succeeds and sets the comparison flag to 763 = 768 - 5, destination value
minus source value; source minus destination would be -763. -/
theorem cmpl_orientation_counterexample :
    (execute_cmpl 1024 sample_system "$5" "%ESP").1 = .SUCCESS
    ∧ operand_value sample_system (get_memory_type "$5") = 5
    ∧ operand_value sample_system (get_memory_type "%ESP") = 768
    ∧ (execute_cmpl 1024 sample_system "$5" "%ESP").2.comparison_flag = 763
    ∧ (execute_cmpl 1024 sample_system "$5" "%ESP").2.comparison_flag
        ≠ wrap32 (operand_value sample_system (get_memory_type "$5")
            - operand_value sample_system (get_memory_type "%ESP")) := by
  refine ⟨?_, ?_, ?_, ?_, ?_⟩ <;> decide

/-- C5, amended. For operands A and B that are each a register, a constant or
an in-range memory operand (not both memory), `execute_cmpl` with B in the
source position and A in the destination position returns `SUCCESS` and sets
the comparison flag to value(A) - value(B), destination value minus source
value, reduced to 32 bits; registers, data memory and the store are
unchanged. -/
theorem cmpl_sets_flag_dst_minus_src (MEMORY_SIZE : Int) (sys : System) (src dst : String)
    (b a : MemoryType) (hb : get_memory_type src = b) (ha : get_memory_type dst = a)
    (res : ExecResult) (sys' : System)
    (hrun : execute_cmpl MEMORY_SIZE sys src dst = (res, sys'))
    (hsrc : readable MEMORY_SIZE sys b) (hdst : readable MEMORY_SIZE sys a)
    (hmm : ¬ (b.type = .MEM ∧ a.type = .MEM)) :
    res = .SUCCESS
    ∧ sys'.comparison_flag = wrap32 (operand_value sys a - operand_value sys b)
    ∧ (∀ r, sys'.registers r = sys.registers r)
    ∧ (∀ i, sys'.memory.data i = sys.memory.data i)
    ∧ sys'.memory.instruction = sys.memory.instruction := by
  subst hb ha
  unfold execute_cmpl execute_cmpl_second at hrun
  unfold readable valid_address address at hsrc hdst
  have hcs : (get_memory_type src).type = .MEM →
      ¬ (wrap32 (sys.registers (get_memory_type src).reg + (get_memory_type src).value) < 0
        ∨ wrap32 (sys.registers (get_memory_type src).reg + (get_memory_type src).value)
            > (MEMORY_SIZE - 1) * 4) := by
    intro hm h
    rcases hsrc with h1 | h1 | ⟨_, h5, h6⟩
    · rw [hm] at h1; cases h1
    · rw [hm] at h1; cases h1
    · rcases h with h | h <;> omega
  have hcd : (get_memory_type dst).type = .MEM →
      ¬ (wrap32 (sys.registers (get_memory_type dst).reg + (get_memory_type dst).value) < 0
        ∨ wrap32 (sys.registers (get_memory_type dst).reg + (get_memory_type dst).value)
            > (MEMORY_SIZE - 1) * 4) := by
    intro hm h
    rcases hdst with h1 | h1 | ⟨_, h5, h6⟩
    · rw [hm] at h1; cases h1
    · rw [hm] at h1; cases h1
    · rcases h with h | h <;> omega
  have hs3 : (get_memory_type src).type = .REG ∨ (get_memory_type src).type = .CONST
      ∨ (get_memory_type src).type = .MEM := by
    rcases hsrc with h | h | h
    · exact Or.inl h
    · exact Or.inr (Or.inl h)
    · exact Or.inr (Or.inr h.1)
  have hd3 : (get_memory_type dst).type = .REG ∨ (get_memory_type dst).type = .CONST
      ∨ (get_memory_type dst).type = .MEM := by
    rcases hdst with h | h | h
    · exact Or.inl h
    · exact Or.inr (Or.inl h)
    · exact Or.inr (Or.inr h.1)
  rcases hs3 with h1 | h1 | h1 <;> rcases hd3 with h2 | h2 | h2
  all_goals first
    | (simp only [h1, h2, hcs, hcd, if_false, not_false_eq_true, reduceCtorEq] at hrun
       obtain ⟨rfl, rfl⟩ := Prod.mk.inj hrun
       simp [h1, h2, operand_value, System.setFlag, address]
       done)
    | exact absurd (And.intro h1 h2) hmm

/-- Witness for C5 (amended): `$5` against `%ESP` on the sample machine gives
the flag 768 - 5. -/
theorem cmpl_sets_flag_dst_minus_src_witness :
    (execute_cmpl 1024 sample_system "$5" "%ESP").1 = .SUCCESS
    ∧ (execute_cmpl 1024 sample_system "$5" "%ESP").2.comparison_flag = 763 :=
  have h := cmpl_sets_flag_dst_minus_src 1024 sample_system "$5" "%ESP"
    ⟨.CONST, .NOT_REG, 5⟩ ⟨.REG, .ESP, -1⟩ (by decide) (by decide)
    (execute_cmpl 1024 sample_system "$5" "%ESP").1
    (execute_cmpl 1024 sample_system "$5" "%ESP").2 rfl
    (Or.inr (Or.inl rfl)) (Or.inl rfl) (by decide)
  ⟨h.1, h.2.1.trans (by decide)⟩

/-- C6. Jump branching: for a mnemonic among JE, JNE, JL, JG, JMP and a label
that `get_addr_from_label` resolves to an address `t` with
`0 <= t <= (MEMORY_SIZE-1)*4`, `execute_jmp` returns `SUCCESS`; it sets `EIP`
to `t` when the condition holds (JE: flag = 0; JNE: flag != 0; JL: flag < 0;
JG: flag > 0; JMP: always) and to the old `EIP` plus 4 (32-bit addition)
otherwise; every other register, data memory, the comparison flag and the
store are unchanged. -/
theorem jmp_branches_on_flag (MEMORY_SIZE : Int) (sys : System) (condition label : String)
    (t : Int) (res : ExecResult) (sys' : System)
    (hcond : condition = "JE" ∨ condition = "JNE" ∨ condition = "JL" ∨ condition = "JG"
      ∨ condition = "JMP")
    (ht : get_addr_from_label sys label = t)
    (hrange : 0 ≤ t ∧ t ≤ (MEMORY_SIZE - 1) * 4)
    (hrun : execute_jmp MEMORY_SIZE sys condition label = (res, sys')) :
    res = .SUCCESS
    ∧ (((condition = "JE" ∧ sys.comparison_flag = 0)
          ∨ (condition = "JNE" ∧ sys.comparison_flag ≠ 0)
          ∨ (condition = "JL" ∧ sys.comparison_flag < 0)
          ∨ (condition = "JG" ∧ sys.comparison_flag > 0)
          ∨ condition = "JMP") →
        sys'.registers .EIP = t)
    ∧ (¬ ((condition = "JE" ∧ sys.comparison_flag = 0)
          ∨ (condition = "JNE" ∧ sys.comparison_flag ≠ 0)
          ∨ (condition = "JL" ∧ sys.comparison_flag < 0)
          ∨ (condition = "JG" ∧ sys.comparison_flag > 0)
          ∨ condition = "JMP") →
        sys'.registers .EIP = wrap32 (sys.registers .EIP + 4))
    ∧ (∀ r, r ≠ .EIP → sys'.registers r = sys.registers r)
    ∧ (∀ i, sys'.memory.data i = sys.memory.data i)
    ∧ sys'.comparison_flag = sys.comparison_flag
    ∧ sys'.memory.instruction = sys.memory.instruction := by
  have hc : ¬ (t < 0 ∨ t > (MEMORY_SIZE - 1) * 4) := by
    intro h; rcases h with h | h <;> omega
  unfold execute_jmp at hrun
  simp only [ht, hc, if_false] at hrun
  have hupd : ∀ (v w : Int) (r : RegisterName), r ≠ .EIP →
      Function.update (Function.update sys.registers .EIP v) .EIP w r = sys.registers r := by
    intro v w r hr
    rw [Function.update_noteq hr, Function.update_noteq hr]
  have hupd1 : ∀ (v : Int) (r : RegisterName), r ≠ .EIP →
      Function.update sys.registers .EIP v r = sys.registers r := by
    intro v r hr
    rw [Function.update_noteq hr]
  rcases hcond with rfl | rfl | rfl | rfl | rfl
  · by_cases hf : sys.comparison_flag = 0
    · simp only [hf, if_true] at hrun
      obtain ⟨rfl, rfl⟩ := Prod.mk.inj hrun
      simp [System.setReg, hf]
      exact fun r hr => hupd1 _ r hr
    · simp only [hf, if_false, if_true] at hrun
      obtain ⟨rfl, rfl⟩ := Prod.mk.inj hrun
      simp [System.setReg, hf]
      exact fun r hr => hupd1 _ r hr
  · have e1 : ¬ ("JNE" = "JE") := by decide
    by_cases hf : sys.comparison_flag > 0 ∨ sys.comparison_flag < 0
    · have hne : sys.comparison_flag ≠ 0 := by rcases hf with h | h <;> omega
      simp only [e1, hf, if_false, if_true] at hrun
      obtain ⟨rfl, rfl⟩ := Prod.mk.inj hrun
      simp [System.setReg, hne]
      exact fun r hr => hupd1 _ r hr
    · have hz : sys.comparison_flag = 0 := by
        by_contra hne
        exact hf (by omega)
      simp only [e1, hf, if_false, if_true] at hrun
      obtain ⟨rfl, rfl⟩ := Prod.mk.inj hrun
      simp [System.setReg, hz]
      exact fun r hr => hupd1 _ r hr
  · have e1 : ¬ ("JL" = "JE") := by decide
    have e2 : ¬ ("JL" = "JNE") := by decide
    by_cases hf : sys.comparison_flag < 0
    · simp only [e1, e2, hf, if_false, if_true] at hrun
      obtain ⟨rfl, rfl⟩ := Prod.mk.inj hrun
      simp [System.setReg, hf]
      exact fun r hr => hupd1 _ r hr
    · simp only [e1, e2, hf, if_false, if_true] at hrun
      obtain ⟨rfl, rfl⟩ := Prod.mk.inj hrun
      simp [System.setReg, hf]
      exact fun r hr => hupd1 _ r hr
  · have e1 : ¬ ("JG" = "JE") := by decide
    have e2 : ¬ ("JG" = "JNE") := by decide
    have e3 : ¬ ("JG" = "JL") := by decide
    by_cases hf : sys.comparison_flag > 0
    · simp only [e1, e2, e3, hf, if_false, if_true] at hrun
      obtain ⟨rfl, rfl⟩ := Prod.mk.inj hrun
      simp [System.setReg, hf]
      exact fun r hr => hupd1 _ r hr
    · simp only [e1, e2, e3, hf, if_false, if_true] at hrun
      obtain ⟨rfl, rfl⟩ := Prod.mk.inj hrun
      simp [System.setReg, hf]
      exact fun r hr => hupd1 _ r hr
  · have e1 : ¬ ("JMP" = "JE") := by decide
    have e2 : ¬ ("JMP" = "JNE") := by decide
    have e3 : ¬ ("JMP" = "JL") := by decide
    have e4 : ¬ ("JMP" = "JG") := by decide
    simp only [e1, e2, e3, e4, if_false, if_true] at hrun
    obtain ⟨rfl, rfl⟩ := Prod.mk.inj hrun
    simp [System.setReg]
    exact fun r hr => hupd1 _ r hr

/-- Witness for C6: in a store holding the label `.L` in slot 1, `JE .L` with
the flag at zero succeeds and sets `EIP` to 8. -/
theorem jmp_branches_on_flag_witness :
    (execute_jmp 1024 label_system "JE" ".L").1 = .SUCCESS
    ∧ (execute_jmp 1024 label_system "JE" ".L").2.registers .EIP = 8 :=
  have h := jmp_branches_on_flag 1024 label_system "JE" ".L" 8
    (execute_jmp 1024 label_system "JE" ".L").1 (execute_jmp 1024 label_system "JE" ".L").2
    (Or.inl rfl) (by decide) (by decide) rfl
  ⟨h.1, h.2.1 (Or.inl ⟨rfl, rfl⟩)⟩

/-- C7, the code at the failing input. In the store `JMP .L` / `.L` / `END`
with `EIP = 0`, `execute_jmp` with the unresolved target `.missing` returns
`PC_ERROR` and leaves `EIP` at 0: the early return for a failed resolution
does not advance the program counter, while the branch for an unknown
mnemonic (here `JX`) adds 4 before returning `PC_ERROR`. -/
theorem jmp_missing_label_keeps_eip :
    get_addr_from_label label_system ".missing" = -1
    ∧ label_system.registers .EIP = 0
    ∧ (execute_jmp 1024 label_system "JMP" ".missing").1 = .PC_ERROR
    ∧ (execute_jmp 1024 label_system "JMP" ".missing").2.registers .EIP = 0
    ∧ (execute_jmp 1024 label_system "JX" ".L").1 = .PC_ERROR
    ∧ (execute_jmp 1024 label_system "JX" ".L").2.registers .EIP = 4 := by
  refine ⟨?_, ?_, ?_, ?_, ?_, ?_⟩ <;> decide

/-- When the target does not resolve (or resolves outside the address range)
`execute_jmp` returns `PC_ERROR` and the whole state, `EIP` included, is the
one it was given. -/
theorem jmp_unresolved_leaves_state (MEMORY_SIZE : Int) (sys : System)
    (condition label : String)
    (h : get_addr_from_label sys label < 0
      ∨ get_addr_from_label sys label > (MEMORY_SIZE - 1) * 4) :
    execute_jmp MEMORY_SIZE sys condition label = (.PC_ERROR, sys) := by
  unfold execute_jmp
  simp only [h, if_true]

/-- The inner push of `execute_call` when the slot below the stack pointer is
a valid address: the state it leaves. -/
theorem push_eip_state (MEMORY_SIZE : Int) (sys : System)
    (hc : ¬ (wrap32 (sys.registers .ESP - 4) < 0
      ∨ wrap32 (sys.registers .ESP - 4) > (MEMORY_SIZE - 1) * 4)) :
    (execute_push MEMORY_SIZE sys "%EIP").2
      = (sys.setReg .ESP (wrap32 (sys.registers .ESP - 4))).setData
          ((wrap32 (sys.registers .ESP - 4)).tdiv 4) (sys.registers .EIP) := by
  have htok : get_memory_type "%EIP" = ⟨.REG, .EIP, -1⟩ := by decide
  unfold execute_push
  simp only [htok, if_neg hc, System.setReg, System.setData, Function.update_same]

/-- C8, counterexample. With `ESP = 0` and `EIP = 0`, `execute_call` to the
resolvable label `.L` returns `SUCCESS` although its inner push failed; the
`execute_ret` that follows pops data word 0 and leaves `EIP = 0`, not
`0 + 4`. -/
theorem call_ret_round_trip_counterexample :
    get_addr_from_label empty_stack_system ".L" = 8
    ∧ (execute_call 1024 empty_stack_system ".L").1 = .SUCCESS
    ∧ empty_stack_system.registers .EIP = 0
    ∧ (execute_ret 1024 (execute_call 1024 empty_stack_system ".L").2).2.registers .EIP = 0 := by
  refine ⟨?_, ?_, ?_, ?_⟩ <;> decide

/-- C8, amended. For every machine state of 32-bit values with
`4 <= ESP <= (MEMORY_SIZE-1)*4` and every label that resolves to an in-range
address, `execute_call` returns `SUCCESS` and `execute_ret` run immediately
afterwards leaves `EIP` equal to the pre-call `EIP` plus 4 (32-bit
addition). -/
theorem call_ret_round_trip (MEMORY_SIZE : Int) (sys : System) (label : String)
    (hin : sys.in_range)
    (hlabel : valid_address MEMORY_SIZE (get_addr_from_label sys label))
    (hsp : 4 ≤ sys.registers .ESP ∧ sys.registers .ESP ≤ (MEMORY_SIZE - 1) * 4) :
    (execute_call MEMORY_SIZE sys label).1 = .SUCCESS
    ∧ (execute_ret MEMORY_SIZE (execute_call MEMORY_SIZE sys label).2).2.registers .EIP
        = wrap32 (sys.registers .EIP + 4) := by
  have h1 := (hin.1 .ESP).1
  have h2 := (hin.1 .ESP).2
  unfold valid_address at hlabel
  have hl : ¬ (get_addr_from_label sys label < 0
      ∨ get_addr_from_label sys label > (MEMORY_SIZE - 1) * 4) := by
    intro h; rcases h with h | h <;> omega
  have hsub : wrap32 (sys.registers .ESP - 4) = sys.registers .ESP - 4 :=
    wrap32_of_in_range _ (by omega) (by omega)
  have hw := wrap32_sub_add (sys.registers .ESP) h1 h2
  have hne : RegisterName.ESP ≠ RegisterName.EIP := by decide
  have hc : ¬ (wrap32 ((sys.setReg .EIP (wrap32 (sys.registers .EIP + 4))).registers .ESP - 4) < 0
      ∨ wrap32 ((sys.setReg .EIP (wrap32 (sys.registers .EIP + 4))).registers .ESP - 4)
          > (MEMORY_SIZE - 1) * 4) := by
    simp only [System.setReg, Function.update_noteq hne, hsub]
    intro h; rcases h with h | h <;> omega
  have hc2 : ¬ (sys.registers .ESP < 0 ∨ sys.registers .ESP > (MEMORY_SIZE - 1) * 4) := by
    intro h; rcases h with h | h <;> omega
  have htok : get_memory_type "%EIP" = ⟨.REG, .EIP, -1⟩ := by decide
  unfold execute_call
  simp only [if_neg hl]
  refine ⟨trivial, ?_⟩
  rw [push_eip_state MEMORY_SIZE _ hc]
  unfold execute_ret execute_pop
  simp only [htok, System.setReg, System.setData, Function.update_same,
    Function.update_noteq hne, hw]
  simp [hc2, Function.update_noteq hne.symm]
  split_ifs <;> simp [Function.update_noteq hne.symm]

/-- Witness for C8 (amended): on `label_system` (`ESP = 768`, `EIP = 0`,
label `.L` at slot 1) call then return leaves `EIP = 4`. -/
theorem call_ret_round_trip_witness :
    (execute_call 1024 label_system ".L").1 = .SUCCESS
    ∧ (execute_ret 1024 (execute_call 1024 label_system ".L").2).2.registers .EIP = 4 :=
  have hin : label_system.in_range := by
    refine ⟨fun r => ?_, fun i => ?_, ?_, ?_⟩
    · cases r <;> decide
    · simp [label_system]
    · decide
    · decide
  have h := call_ret_round_trip 1024 label_system ".L" hin (by decide) (by decide)
  ⟨h.1, h.2.trans (by decide)⟩

/-- C9, counterexample. With `ESP = 0`, `execute_call` to the label `.L`
(resolved to 8) returns `SUCCESS` and sets `EIP = 8`, but its inner push
failed: `ESP` is still 0, not `0 - 4`, and the data word at index `ESP/4 = 0`
is still 0, not the return address 4. -/
theorem call_effect_counterexample :
    get_addr_from_label empty_stack_system ".L" = 8
    ∧ (execute_call 1024 empty_stack_system ".L").1 = .SUCCESS
    ∧ empty_stack_system.registers .ESP = 0
    ∧ empty_stack_system.registers .EIP = 0
    ∧ (execute_call 1024 empty_stack_system ".L").2.registers .ESP = 0
    ∧ (execute_call 1024 empty_stack_system ".L").2.memory.data 0 = 0
    ∧ (execute_call 1024 empty_stack_system ".L").2.registers .EIP = 8 := by
  refine ⟨?_, ?_, ?_, ?_, ?_, ?_, ?_⟩ <;> decide

/-- C9, amended. For every machine state of 32-bit values and label token,
whenever `execute_call` returns `SUCCESS` with the label resolved to `t` and
the slot below the stack pointer is a valid address
(`0 <= ESP - 4 <= (MEMORY_SIZE-1)*4`), then afterwards `ESP` is the old `ESP`
minus 4, the data word at index (new `ESP`)/4 is the old `EIP` plus 4 (32-bit
addition), `EIP = t`, and every other register, every other data word, the
comparison flag and the store are unchanged. -/
theorem call_effect (MEMORY_SIZE : Int) (sys : System) (label : String)
    (t : Int) (sys' : System)
    (hin : sys.in_range)
    (ht : get_addr_from_label sys label = t)
    (hrun : execute_call MEMORY_SIZE sys label = (.SUCCESS, sys'))
    (hsp : valid_address MEMORY_SIZE (sys.registers .ESP - 4)) :
    sys'.registers .ESP = sys.registers .ESP - 4
    ∧ sys'.memory.data ((sys'.registers .ESP).tdiv 4) = wrap32 (sys.registers .EIP + 4)
    ∧ sys'.registers .EIP = t
    ∧ (∀ r, r ≠ .ESP → r ≠ .EIP → sys'.registers r = sys.registers r)
    ∧ (∀ i, i ≠ (sys'.registers .ESP).tdiv 4 → sys'.memory.data i = sys.memory.data i)
    ∧ sys'.comparison_flag = sys.comparison_flag
    ∧ sys'.memory.instruction = sys.memory.instruction := by
  have h1 := (hin.1 .ESP).1
  have h2 := (hin.1 .ESP).2
  unfold valid_address at hsp
  have hsub : wrap32 (sys.registers .ESP - 4) = sys.registers .ESP - 4 :=
    wrap32_of_in_range _ (by omega) (by omega)
  have hne : RegisterName.ESP ≠ RegisterName.EIP := by decide
  have hc : ¬ (wrap32 ((sys.setReg .EIP (wrap32 (sys.registers .EIP + 4))).registers .ESP - 4) < 0
      ∨ wrap32 ((sys.setReg .EIP (wrap32 (sys.registers .EIP + 4))).registers .ESP - 4)
          > (MEMORY_SIZE - 1) * 4) := by
    simp only [System.setReg, Function.update_noteq hne, hsub]
    intro h; rcases h with h | h <;> omega
  unfold execute_call at hrun
  rw [ht] at hrun
  simp only [] at hrun
  split_ifs at hrun with hl
  · simp at hrun
  · rw [push_eip_state MEMORY_SIZE _ hc] at hrun
    have hs := (Prod.mk.inj hrun).2
    subst hs
    have hesp : ((((sys.setReg .EIP (wrap32 (sys.registers .EIP + 4))).setReg .ESP
        (wrap32 ((sys.setReg .EIP (wrap32 (sys.registers .EIP + 4))).registers .ESP - 4))).setData
        ((wrap32 ((sys.setReg .EIP (wrap32 (sys.registers .EIP + 4))).registers .ESP - 4)).tdiv 4)
        ((sys.setReg .EIP (wrap32 (sys.registers .EIP + 4))).registers .EIP)).setReg
        .EIP t).registers .ESP = sys.registers .ESP - 4 := by
      simp [System.setReg, System.setData, Function.update_noteq hne, hsub]
    refine ⟨hesp, ?_, ?_, ?_, ?_, rfl, rfl⟩
    · rw [hesp]
      simp [System.setReg, System.setData, Function.update_noteq hne, hsub]
    · simp [System.setReg, System.setData]
    · intro r hr1 hr2
      simp [System.setReg, System.setData, Function.update_noteq hr1, Function.update_noteq hr2]
    · intro i hi
      rw [hesp] at hi
      simp [System.setReg, System.setData, Function.update_noteq hne, hsub,
        Function.update_noteq hi]

/-- Witness for C9 (amended): on `label_system` (`ESP = 768`, `EIP = 0`) the
call to `.L` leaves `ESP = 764`, the return address 4 in data word 191 and
`EIP = 8`. -/
theorem call_effect_witness :
    (execute_call 1024 label_system ".L").2.registers .ESP = 764
    ∧ (execute_call 1024 label_system ".L").2.memory.data 191 = 4
    ∧ (execute_call 1024 label_system ".L").2.registers .EIP = 8 :=
  have hin : label_system.in_range := by
    refine ⟨fun r => ?_, fun i => ?_, ?_, ?_⟩
    · cases r <;> decide
    · simp [label_system]
    · decide
    · decide
  have h := call_effect 1024 label_system ".L" 8 (execute_call 1024 label_system ".L").2
    hin (by decide) rfl (by decide)
  ⟨h.1.trans (by decide), h.2.1, h.2.2.1⟩

/-- The result of `execute_ret` as the code computes it: `PC_ERROR` exactly
when the popped `EIP` itself, a byte address, is negative, above
`MEMORY_SIZE - 1` or above `num_instructions`. -/
theorem ret_result (MEMORY_SIZE : Int) (sys : System) :
    ((execute_ret MEMORY_SIZE sys).1 = .PC_ERROR ↔
      ((execute_ret MEMORY_SIZE sys).2.registers .EIP < 0
        ∨ (execute_ret MEMORY_SIZE sys).2.registers .EIP > MEMORY_SIZE - 1
        ∨ (execute_ret MEMORY_SIZE sys).2.registers .EIP
            > (execute_ret MEMORY_SIZE sys).2.memory.num_instructions))
    ∧ ((execute_ret MEMORY_SIZE sys).1 = .PC_ERROR ∨ (execute_ret MEMORY_SIZE sys).1 = .SUCCESS) := by
  unfold execute_ret
  simp only []
  split_ifs with h
  · exact ⟨⟨fun _ => h, fun _ => rfl⟩, Or.inl rfl⟩
  · exact ⟨⟨fun hc => (by cases hc), fun hc => absurd hc h⟩, Or.inr rfl⟩

/-- C10, the code at the failing input. In the five-line store of
`return_system`, returning to the valid address 8 (instruction index 2, the
`END` after the call) the pop sets `EIP = 8`; the index `8 / 4 = 2` is neither
negative nor above `num_instructions = 5`, yet `execute_ret` returns
`PC_ERROR`, because it compares the byte address 8 with the count 5. -/
theorem ret_valid_address_is_pc_error :
    (execute_ret 1024 return_system).2.registers .EIP = 8
    ∧ (execute_ret 1024 return_system).2.memory.num_instructions = 5
    ∧ ¬ (((execute_ret 1024 return_system).2.registers .EIP).tdiv 4 < 0
        ∨ ((execute_ret 1024 return_system).2.registers .EIP).tdiv 4
            > (execute_ret 1024 return_system).2.memory.num_instructions)
    ∧ (execute_ret 1024 return_system).1 = .PC_ERROR := by
  refine ⟨?_, ?_, ?_, ?_⟩ <;> decide

/-- A token is sent to a register by `get_register_by_name` exactly when it is
one of the six spellings. -/
theorem get_register_by_name_ne_not_reg (name : String) :
    get_register_by_name name ≠ .NOT_REG ↔
      (name = "%EAX" ∨ name = "%EDX" ∨ name = "%ECX" ∨ name = "%ESP" ∨ name = "%EBP"
        ∨ name = "%EIP") := by
  unfold get_register_by_name
  split_ifs with h1 h2 h3 h4 h5 h6 <;> simp [*]

/-- C11. Register decoding is exact: `get_memory_type` returns kind `REG` if
and only if the token is exactly one of `%EAX`, `%EDX`, `%ECX`, `%ESP`,
`%EBP`, `%EIP`; for each of these six the result is kind `REG` with the
matching register identity and the value field -1. -/
theorem register_decoding_exact (tok : String) :
    ((get_memory_type tok).type = .REG ↔
      (tok = "%EAX" ∨ tok = "%EDX" ∨ tok = "%ECX" ∨ tok = "%ESP" ∨ tok = "%EBP"
        ∨ tok = "%EIP"))
    ∧ get_memory_type "%EAX" = ⟨.REG, .EAX, -1⟩
    ∧ get_memory_type "%EDX" = ⟨.REG, .EDX, -1⟩
    ∧ get_memory_type "%ECX" = ⟨.REG, .ECX, -1⟩
    ∧ get_memory_type "%ESP" = ⟨.REG, .ESP, -1⟩
    ∧ get_memory_type "%EBP" = ⟨.REG, .EBP, -1⟩
    ∧ get_memory_type "%EIP" = ⟨.REG, .EIP, -1⟩ := by
  refine ⟨?_, by decide, by decide, by decide, by decide, by decide, by decide⟩
  rw [← get_register_by_name_ne_not_reg]
  unfold get_memory_type
  by_cases h : get_register_by_name tok = .NOT_REG
  · simp only [h, ne_eq, not_true_eq_false, if_false]
    constructor
    · intro hc
      exfalso
      revert hc
      split_ifs
      · simp
      · split
        · simp
        · split_ifs <;> simp
      · simp
    · intro hc; exact hc.elim
  · simp [h]

/-- The scan loop returns the slot after the first matching line. -/
theorem scan_label_first (tok : String) :
    ∀ (lines : List String) (k i : Nat), lines.get? i = some tok →
      (∀ j, j < i → lines.get? j ≠ some tok) →
      scan_label tok lines k = (((k + i : Nat) : Int) + 1) * 4 := by
  intro lines
  induction lines with
  | nil => intro k i h; simp at h
  | cons line rest ih =>
    intro k i h hmin
    cases i with
    | zero =>
      simp at h
      simp [scan_label, h]
    | succ i =>
      have h0 : line ≠ tok := by
        intro hc
        exact hmin 0 (Nat.succ_pos i) (by simp [hc])
      have hrest : rest.get? i = some tok := by simpa using h
      have hmin2 : ∀ j, j < i → rest.get? j ≠ some tok := by
        intro j hj
        have := hmin (j + 1) (Nat.succ_lt_succ hj)
        simpa using this
      have := ih (k + 1) i hrest hmin2
      simp only [scan_label, h0, if_false]
      rw [this]
      have e : k + 1 + i = k + (i + 1) := by omega
      rw [e]

/-- The scan loop returns -1 when no line matches. -/
theorem scan_label_none (tok : String) :
    ∀ (lines : List String) (k : Nat), (∀ i, lines.get? i ≠ some tok) →
      scan_label tok lines k = -1 := by
  intro lines
  induction lines with
  | nil => intro k _; rfl
  | cons line rest ih =>
    intro k h
    have h0 : line ≠ tok := by
      intro hc
      exact h 0 (by simp [hc])
    have hrest : ∀ i, rest.get? i ≠ some tok := by
      intro i
      have := h (i + 1)
      simpa using this
    simp only [scan_label, h0, if_false]
    exact ih (k + 1) hrest

/-- C14. Label resolution: `get_addr_from_label` returns -1 when the token's
first character is not `.` (whatever the store holds); otherwise it returns
`(i+1)*4` for the smallest index `i` below `num_instructions` whose stored
line equals the token, and -1 when no index below `num_instructions` holds
the token. -/
theorem label_resolution (sys : System) (tok : String) :
    (tok.toList.head? ≠ some '.' → get_addr_from_label sys tok = -1)
    ∧ (tok.toList.head? = some '.' →
        (∀ i : Nat, (i : Int) < sys.memory.num_instructions →
          sys.memory.instruction.get? i = some tok →
          (∀ j : Nat, j < i → sys.memory.instruction.get? j ≠ some tok) →
          get_addr_from_label sys tok = ((i : Int) + 1) * 4)
        ∧ ((∀ i : Nat, (i : Int) < sys.memory.num_instructions →
              sys.memory.instruction.get? i ≠ some tok) →
            get_addr_from_label sys tok = -1)) := by
  refine ⟨?_, ?_⟩
  · intro h
    unfold get_addr_from_label
    simp only [h, ne_eq, not_false_eq_true, if_true]
  · intro h
    unfold get_addr_from_label
    simp only [h, ne_eq, not_true_eq_false, if_false]
    refine ⟨?_, ?_⟩
    · intro i _ hi hmin
      have := scan_label_first tok sys.memory.instruction 0 i hi hmin
      simpa using this
    · intro hnone
      apply scan_label_none
      intro i hc
      have hlt : i < sys.memory.instruction.length := by
        by_contra hge
        have : sys.memory.instruction.get? i = none := by
          simp only [List.get?_eq_getElem?]
          exact List.getElem?_eq_none (by omega)
        rw [this] at hc
        cases hc
      exact hnone i (by unfold Memory.num_instructions; exact_mod_cast hlt) hc

/-- Witness for C14: in the store `JMP .L` / `.L` / `END` the token `END`
(no leading `.`) resolves to -1 although slot 2 holds it, the token `.L`
resolves to (1+1)*4 = 8, and the token `.M`, held by no slot, to -1. -/
theorem label_resolution_witness :
    get_addr_from_label label_system "END" = -1
    ∧ get_addr_from_label label_system ".L" = ((1 : Nat) + 1) * 4
    ∧ get_addr_from_label label_system ".M" = -1 :=
  ⟨(label_resolution label_system "END").1 (by decide),
   ((label_resolution label_system ".L").2 (by decide)).1 1 (by decide) (by decide)
     (by decide),
   ((label_resolution label_system ".M").2 (by decide)).2 (by
      intro i hi
      have hlt : i < 3 := by
        have : (i : Int) < 3 := hi
        omega
      interval_cases i <;> decide)⟩

/-- C15, counterexample. With an exhausted stack (`ESP = 0`) the invalid
token `x` gives `MEMORY_ERROR` from `execute_push`; with `ESP = 4096`
(`MEMORY_SIZE = 1024`), where neither `ESP` nor `ESP + 4` is an address, it
gives `MEMORY_ERROR` from `execute_pop`; on the sample machine `execute_addl`
with source `x` and the out-of-range memory destination `-4(%EAX)`, and
`execute_cmpl` with that operand as source and destination `x`, give
`MEMORY_ERROR` as well. -/
theorem invalid_operand_counterexample :
    (get_memory_type "x").type = .UNKNOWN
    ∧ (execute_push 1024 empty_stack_system "x").1 = .MEMORY_ERROR
    ∧ ¬ valid_address 1024 (top_of_memory_system.registers .ESP)
    ∧ (execute_pop 1024 top_of_memory_system "x").1 = .MEMORY_ERROR
    ∧ (execute_addl 1024 sample_system "x" "-4(%EAX)").1 = .MEMORY_ERROR
    ∧ (execute_cmpl 1024 sample_system "-4(%EAX)" "x").1 = .MEMORY_ERROR := by
  refine ⟨?_, ?_, ?_, ?_, ?_, ?_⟩ <;> decide

/-- C15, amended. When an operand token decodes to the invalid kind, no data
executor returns `SUCCESS`.  `execute_movl` returns `INSTRUCTION_ERROR`.  The
others return `INSTRUCTION_ERROR` unless an address test made before the
operand kind is looked at fails, in which case they return `MEMORY_ERROR`:
for `execute_push` the test of `ESP - 4`, for `execute_addl` the test of a
memory destination's address, for `execute_cmpl` the test of a memory
source's address.  For `execute_pop` the test is that of the stack pointer:
`INSTRUCTION_ERROR` when `ESP` and `ESP + 4` are both valid addresses,
`MEMORY_ERROR` when neither is; the states in which the two differ are left
out. -/
theorem invalid_operand_result (MEMORY_SIZE : Int) (sys : System) (src dst : String)
    (s d : MemoryType) (hs : get_memory_type src = s) (hd : get_memory_type dst = d) :
    ((s.type = .UNKNOWN ∨ d.type = .UNKNOWN) →
        (execute_movl MEMORY_SIZE sys src dst).1 = .INSTRUCTION_ERROR)
    ∧ ((s.type = .UNKNOWN ∨ d.type = .UNKNOWN) →
        (execute_addl MEMORY_SIZE sys src dst).1
          = if d.type = .MEM ∧ ¬ valid_address MEMORY_SIZE (address sys d)
            then .MEMORY_ERROR else .INSTRUCTION_ERROR)
    ∧ (s.type = .UNKNOWN →
        (execute_push MEMORY_SIZE sys src).1
          = if ¬ valid_address MEMORY_SIZE (wrap32 (sys.registers .ESP - 4))
            then .MEMORY_ERROR else .INSTRUCTION_ERROR)
    ∧ (d.type = .UNKNOWN →
        (execute_pop MEMORY_SIZE sys dst).1 ≠ .SUCCESS
        ∧ (valid_address MEMORY_SIZE (sys.registers .ESP)
            ∧ valid_address MEMORY_SIZE (wrap32 (sys.registers .ESP + 4)) →
          (execute_pop MEMORY_SIZE sys dst).1 = .INSTRUCTION_ERROR)
        ∧ (¬ valid_address MEMORY_SIZE (sys.registers .ESP)
            ∧ ¬ valid_address MEMORY_SIZE (wrap32 (sys.registers .ESP + 4)) →
          (execute_pop MEMORY_SIZE sys dst).1 = .MEMORY_ERROR))
    ∧ ((s.type = .UNKNOWN ∨ d.type = .UNKNOWN) →
        (execute_cmpl MEMORY_SIZE sys src dst).1
          = if s.type = .MEM ∧ ¬ valid_address MEMORY_SIZE (address sys s)
            then .MEMORY_ERROR else .INSTRUCTION_ERROR) := by
  subst hs hd
  have hv : ∀ a : Int, (a < 0 ∨ a > (MEMORY_SIZE - 1) * 4) ↔ ¬ valid_address MEMORY_SIZE a := by
    intro a
    unfold valid_address
    constructor
    · intro h hc; rcases h with h | h <;> omega
    · intro h
      by_contra hc
      exact h ⟨by omega, by omega⟩
  refine ⟨?_, ?_, ?_, ?_, ?_⟩
  · unfold execute_movl
    generalize get_memory_type src = s
    generalize get_memory_type dst = d
    rcases s with ⟨st, sr, sv⟩
    rcases d with ⟨dt, dr, dv⟩
    cases st <;> cases dt <;> simp
  · unfold execute_addl address
    simp only [hv]
    generalize get_memory_type src = s
    generalize get_memory_type dst = d
    rcases s with ⟨st, sr, sv⟩
    rcases d with ⟨dt, dr, dv⟩
    cases st <;> cases dt <;> (simp; try (split_ifs <;> rfl))
  · unfold execute_push
    simp only [hv]
    generalize get_memory_type src = s
    rcases s with ⟨st, sr, sv⟩
    cases st <;> (simp; try (split_ifs <;> rfl))
  · intro hdu
    have hres : (execute_pop MEMORY_SIZE sys dst).1
        = if ¬ valid_address MEMORY_SIZE (wrap32 (sys.registers .ESP + 4))
          then .MEMORY_ERROR else .INSTRUCTION_ERROR := by
      unfold execute_pop
      simp only [hv, hdu]
      split_ifs <;> rfl
    refine ⟨?_, ?_, ?_⟩
    · rw [hres]
      split_ifs <;> decide
    · intro hboth
      rw [hres]
      simp [hboth.2]
    · intro hneither
      rw [hres]
      simp [hneither.2]
  · unfold execute_cmpl execute_cmpl_second address
    simp only [hv]
    generalize get_memory_type src = s
    generalize get_memory_type dst = d
    rcases s with ⟨st, sr, sv⟩
    rcases d with ⟨dt, dr, dv⟩
    cases st <;> cases dt <;> (simp; try (split_ifs <;> rfl))

/-- Witness for C15 (amended): on the sample machine, where `ESP - 4`, `ESP`
and `ESP + 4` are all valid addresses, the invalid token `x` gives
`INSTRUCTION_ERROR` from all five executors. -/
theorem invalid_operand_result_witness :
    (execute_movl 1024 sample_system "x" "%EAX").1 = .INSTRUCTION_ERROR
    ∧ (execute_addl 1024 sample_system "x" "%EAX").1 = .INSTRUCTION_ERROR
    ∧ (execute_push 1024 sample_system "x").1 = .INSTRUCTION_ERROR
    ∧ (execute_pop 1024 sample_system "x").1 = .INSTRUCTION_ERROR
    ∧ (execute_cmpl 1024 sample_system "x" "%EAX").1 = .INSTRUCTION_ERROR :=
  have h := invalid_operand_result 1024 sample_system "x" "%EAX"
    (get_memory_type "x") (get_memory_type "%EAX") rfl rfl
  have hx := invalid_operand_result 1024 sample_system "x" "x"
    (get_memory_type "x") (get_memory_type "x") rfl rfl
  ⟨h.1 (Or.inl (by decide)),
   (h.2.1 (Or.inl (by decide))).trans (by decide),
   (h.2.2.1 (by decide)).trans (by decide),
   (hx.2.2.2.1 (by decide)).2.1 (by decide),
   (h.2.2.2.2 (Or.inl (by decide))).trans (by decide)⟩

/-- C16, counterexample. On the sample machine `execute_addl` with the memory
source `(%ESP)` and the memory destination `-4(%EAX)`, whose address -4 is
out of range, returns `MEMORY_ERROR`. -/
theorem memory_to_memory_counterexample :
    (get_memory_type "(%ESP)").type = .MEM
    ∧ (get_memory_type "-4(%EAX)").type = .MEM
    ∧ (execute_addl 1024 sample_system "(%ESP)" "-4(%EAX)").1 = .MEMORY_ERROR := by
  refine ⟨?_, ?_, ?_⟩ <;> decide

/-- C16, amended. For two operands that both decode to the memory kind,
whatever addresses they compute, `execute_movl` and `execute_cmpl` return
`INSTRUCTION_ERROR`; `execute_addl` returns `INSTRUCTION_ERROR` when the
destination's address passes the address test and `MEMORY_ERROR` when it
does not. -/
theorem memory_to_memory_result (MEMORY_SIZE : Int) (sys : System) (src dst : String)
    (s d : MemoryType) (hs : get_memory_type src = s) (hd : get_memory_type dst = d)
    (hsm : s.type = .MEM) (hdm : d.type = .MEM) :
    (execute_movl MEMORY_SIZE sys src dst).1 = .INSTRUCTION_ERROR
    ∧ (execute_cmpl MEMORY_SIZE sys src dst).1 = .INSTRUCTION_ERROR
    ∧ (execute_addl MEMORY_SIZE sys src dst).1
        = if valid_address MEMORY_SIZE (address sys d) then .INSTRUCTION_ERROR
          else .MEMORY_ERROR := by
  subst hs hd
  have hv : ∀ a : Int, (a < 0 ∨ a > (MEMORY_SIZE - 1) * 4) ↔ ¬ valid_address MEMORY_SIZE a := by
    intro a
    unfold valid_address
    constructor
    · intro h hc; rcases h with h | h <;> omega
    · intro h
      by_contra hc
      exact h ⟨by omega, by omega⟩
  refine ⟨?_, ?_, ?_⟩
  · unfold execute_movl
    simp only [hsm, hdm]
  · unfold execute_cmpl
    simp only [hsm, hdm, if_true]
  · unfold execute_addl address
    simp only [hsm, hdm, hv]
    split_ifs <;> rfl

/-- Witness for C16 (amended): on the sample machine, with the in-range
memory operands `(%ESP)` and `(%EBP)`, all three executors return
`INSTRUCTION_ERROR`. -/
theorem memory_to_memory_result_witness :
    (execute_movl 1024 sample_system "(%ESP)" "(%EBP)").1 = .INSTRUCTION_ERROR
    ∧ (execute_cmpl 1024 sample_system "(%ESP)" "(%EBP)").1 = .INSTRUCTION_ERROR
    ∧ (execute_addl 1024 sample_system "(%ESP)" "(%EBP)").1 = .INSTRUCTION_ERROR :=
  have h := memory_to_memory_result 1024 sample_system "(%ESP)" "(%EBP)"
    (get_memory_type "(%ESP)") (get_memory_type "(%EBP)") rfl rfl (by decide) (by decide)
  ⟨h.1, h.2.1, h.2.2.trans (by decide)⟩

/-- The result of `execute_pop` for a register destination: `SUCCESS` exactly
when `ESP + 4` (32-bit addition) passes the address test, `MEMORY_ERROR`
otherwise. -/
theorem pop_register_result (MEMORY_SIZE : Int) (sys : System) (dst : String)
    (hd : (get_memory_type dst).type = .REG) :
    (execute_pop MEMORY_SIZE sys dst).1
      = if valid_address MEMORY_SIZE (wrap32 (sys.registers .ESP + 4)) then .SUCCESS
        else .MEMORY_ERROR := by
  have hv : ∀ a : Int, (a < 0 ∨ a > (MEMORY_SIZE - 1) * 4) ↔ ¬ valid_address MEMORY_SIZE a := by
    intro a
    unfold valid_address
    constructor
    · intro h hc; rcases h with h | h <;> omega
    · intro h
      by_contra hc
      exact h ⟨by omega, by omega⟩
  unfold execute_pop
  simp only [hd, hv]
  split_ifs <;> rfl

/-- C17, the code at the failing inputs (`MEMORY_SIZE = 1024`). With
`ESP = 4092`, the address of the last data word, `execute_pop` into `%EAX`
returns `MEMORY_ERROR`; with `ESP = -4`, not an address, it returns `SUCCESS`
and reads the word at index `-4 / 4 = -1`, outside `0 .. 1023`. -/
theorem pop_tests_esp_plus_4 :
    (get_memory_type "%EAX").type = .REG
    ∧ valid_address 1024 (last_word_system.registers .ESP)
    ∧ (execute_pop 1024 last_word_system "%EAX").1 = .MEMORY_ERROR
    ∧ ¬ valid_address 1024 (below_memory_system.registers .ESP)
    ∧ (execute_pop 1024 below_memory_system "%EAX").1 = .SUCCESS
    ∧ (below_memory_system.registers .ESP).tdiv 4 = -1 := by
  refine ⟨?_, ?_, ?_, ?_, ?_, ?_⟩ <;> decide

/-- C18, counterexample. On the sample machine (`EIP = 0`) `MOVL $5 %EIP` and
`ADDL $5 %EIP` succeed and leave `EIP = 5`; on `return_system` (`EIP = 16`,
8 on top of the stack) `POPL %EIP` succeeds and leaves `EIP = 8`. -/
theorem data_executors_write_eip_counterexample :
    sample_system.registers .EIP = 0
    ∧ (execute_movl 1024 sample_system "$5" "%EIP").1 = .SUCCESS
    ∧ (execute_movl 1024 sample_system "$5" "%EIP").2.registers .EIP = 5
    ∧ (execute_addl 1024 sample_system "$5" "%EIP").1 = .SUCCESS
    ∧ (execute_addl 1024 sample_system "$5" "%EIP").2.registers .EIP = 5
    ∧ return_system.registers .EIP = 16
    ∧ (execute_pop 1024 return_system "%EIP").1 = .SUCCESS
    ∧ (execute_pop 1024 return_system "%EIP").2.registers .EIP = 8 := by
  refine ⟨?_, ?_, ?_, ?_, ?_, ?_, ?_, ?_⟩ <;> decide

/-- C18, amended. `execute_push` and `execute_cmpl` never change `EIP`;
`execute_movl`, `execute_addl` and `execute_pop` leave `EIP` at its value
before the call, with any result, unless their destination operand decodes to
the register `EIP` itself. -/
theorem data_executors_keep_eip (MEMORY_SIZE : Int) (sys : System) (src dst : String)
    (d : MemoryType) (hd : get_memory_type dst = d) :
    (execute_push MEMORY_SIZE sys src).2.registers .EIP = sys.registers .EIP
    ∧ (execute_cmpl MEMORY_SIZE sys src dst).2.registers .EIP = sys.registers .EIP
    ∧ (¬ (d.type = .REG ∧ d.reg = .EIP) →
        (execute_movl MEMORY_SIZE sys src dst).2.registers .EIP = sys.registers .EIP
        ∧ (execute_addl MEMORY_SIZE sys src dst).2.registers .EIP = sys.registers .EIP
        ∧ (execute_pop MEMORY_SIZE sys dst).2.registers .EIP = sys.registers .EIP) := by
  subst hd
  have hne : RegisterName.EIP ≠ RegisterName.ESP := by decide
  refine ⟨?_, ?_, ?_⟩
  · unfold execute_push
    generalize get_memory_type src = s
    rcases s with ⟨st, sr, sv⟩
    cases st <;> simp only [] <;> (try split_ifs) <;> rfl
  · unfold execute_cmpl execute_cmpl_second
    generalize get_memory_type src = s
    generalize get_memory_type dst = d
    rcases s with ⟨st, sr, sv⟩
    rcases d with ⟨dt, dr, dv⟩
    cases st <;> cases dt <;> simp only [] <;> (try split_ifs) <;> rfl
  · intro hnot
    unfold execute_movl execute_addl execute_pop
    generalize get_memory_type dst = d at hnot ⊢
    generalize get_memory_type src = s
    rcases s with ⟨st, sr, sv⟩
    rcases d with ⟨dt, dr, dv⟩
    by_cases hdr : dr = .EIP
    · subst hdr
      have hdt : dt ≠ .REG := fun h => hnot ⟨h, rfl⟩
      refine ⟨?_, ?_, ?_⟩
      · cases st <;> cases dt <;> simp only [] <;> (try split_ifs) <;>
          first
            | exact absurd rfl hdt
            | rfl
      · cases st <;> cases dt <;> simp only [] <;> (try split_ifs) <;>
          first
            | exact absurd rfl hdt
            | rfl
      · cases dt <;> simp only [] <;> (try split_ifs) <;>
          first
            | exact absurd rfl hdt
            | rfl
    · have hr : RegisterName.EIP ≠ dr := fun h => hdr h.symm
      refine ⟨?_, ?_, ?_⟩
      · cases st <;> cases dt <;> simp only [] <;> (try split_ifs) <;>
          first
            | rfl
            | simp [System.setReg, System.setData, Function.update_noteq hr]
      · cases st <;> cases dt <;> simp only [] <;> (try split_ifs) <;>
          first
            | rfl
            | simp [System.setReg, System.setData, Function.update_noteq hr]
      · cases dt <;> simp only [] <;> (try split_ifs) <;>
          first
            | rfl
            | simp [System.setReg, System.setData, Function.update_noteq hne,
                Function.update_noteq hr]

/-- Witness for C18 (amended): on the sample machine the three executors with
destination `%EAX` leave `EIP` alone. -/
theorem data_executors_keep_eip_witness :
    (execute_movl 1024 sample_system "$5" "%EAX").2.registers .EIP = sample_system.registers .EIP
    ∧ (execute_addl 1024 sample_system "$5" "%EAX").2.registers .EIP
        = sample_system.registers .EIP
    ∧ (execute_pop 1024 sample_system "%EAX").2.registers .EIP = sample_system.registers .EIP :=
  (data_executors_keep_eip 1024 sample_system "$5" "%EAX" (get_memory_type "%EAX") rfl).2.2
    (by decide)

/-- One iteration on a line `MOVL src dst` with two register operands: the
destination receives the source and `EIP` advances. -/
theorem step_movl_registers (MEMORY_SIZE : Int) (sys : System) (i : Nat) (line src dst : String)
    (rs rd : RegisterName)
    (heip : sys.registers .EIP = 4 * (i : Int))
    (hline : sys.memory.instruction.get? i = some line)
    (hsplit : splitString line = ("MOVL", src, dst))
    (hsrc : get_memory_type src = ⟨.REG, rs, -1⟩)
    (hdst : get_memory_type dst = ⟨.REG, rd, -1⟩) :
    execute_step MEMORY_SIZE sys = .running (sys.setReg rd (sys.registers rs)).advance := by
  have hidx : (sys.registers .EIP).tdiv 4 = (i : Int) := by
    rw [heip]; simp [Int.mul_tdiv_cancel_left]
  unfold execute_step
  simp only [hidx, Int.toNat_ofNat, hline, hsplit]
  have hn : ¬ ((i : Int) < 0) := by omega
  simp only [hn, if_false, if_true]
  unfold execute_movl
  simp only [hsrc, hdst]

/-- C19. End-to-end chained moves: from every machine state with `EIP = 0`
whose store is `MOVL %EDX %EAX` / `MOVL %ECX %EDX` / `END`,
`execute_instructions` halts (three iterations suffice, and any larger bound
gives the same state); in the final state `EAX` is the initial `EDX`, `EDX`
the initial `ECX`, `ECX` is unchanged and `EIP = 8`. -/
theorem chained_moves_end_to_end (MEMORY_SIZE : Int) (sys : System) (k : Nat)
    (heip : sys.registers .EIP = 0)
    (hprog : sys.memory.instruction = ["MOVL %EDX %EAX", "MOVL %ECX %EDX", "END"]) :
    ∃ sys', execute_instructions MEMORY_SIZE (k + 3) sys = some sys'
      ∧ sys'.registers .EAX = sys.registers .EDX
      ∧ sys'.registers .EDX = sys.registers .ECX
      ∧ sys'.registers .ECX = sys.registers .ECX
      ∧ sys'.registers .EIP = 8 := by
  have hw4 : wrap32 4 = 4 := by decide
  have hw8 : wrap32 8 = 8 := by decide
  -- first iteration
  have h1 := step_movl_registers MEMORY_SIZE sys 0 "MOVL %EDX %EAX" "%EDX" "%EAX" .EDX .EAX
    (by simp [heip]) (by simp [hprog]) (by decide) (by decide) (by decide)
  generalize hsys1 : (sys.setReg .EAX (sys.registers .EDX)).advance = sys1 at h1
  have e1 : sys1.registers .EIP = 4 := by
    rw [← hsys1]; simp [System.advance, System.setReg, heip, hw4]
  have p1 : sys1.memory.instruction = ["MOVL %EDX %EAX", "MOVL %ECX %EDX", "END"] := by
    rw [← hsys1]; exact hprog
  -- second iteration
  have h2 := step_movl_registers MEMORY_SIZE sys1 1 "MOVL %ECX %EDX" "%ECX" "%EDX" .ECX .EDX
    (by simp [e1]) (by simp [p1]) (by decide) (by decide) (by decide)
  generalize hsys2 : (sys1.setReg .EDX (sys1.registers .ECX)).advance = sys2 at h2
  have e2 : sys2.registers .EIP = 8 := by
    rw [← hsys2]; simp [System.advance, System.setReg, e1, hw8]
  have p2 : sys2.memory.instruction = ["MOVL %EDX %EAX", "MOVL %ECX %EDX", "END"] := by
    rw [← hsys2]; exact p1
  -- third iteration: the end marker
  have h3 : execute_step MEMORY_SIZE sys2 = .halted sys2 := by
    have hsplit : splitString "END" = ("END", "", "") := by decide
    unfold execute_step
    simp only [e2, p2]
    have hidx : (8 : Int).tdiv 4 = 2 := by decide
    simp only [hidx]
    simp [hsplit]
  refine ⟨sys2, ?_, ?_, ?_, ?_, e2⟩
  · show execute_instructions MEMORY_SIZE ((k + 2) + 1) sys = some sys2
    simp only [execute_instructions, h1]
    show execute_instructions MEMORY_SIZE ((k + 1) + 1) sys1 = some sys2
    simp only [execute_instructions, h2]
    show execute_instructions MEMORY_SIZE (k + 1) sys2 = some sys2
    simp only [execute_instructions, h3]
  · rw [← hsys2, ← hsys1]
    simp [System.advance, System.setReg, Function.update_apply]
  · rw [← hsys2, ← hsys1]
    simp [System.advance, System.setReg, Function.update_apply]
  · rw [← hsys2, ← hsys1]
    simp [System.advance, System.setReg, Function.update_apply]

/-- Witness for C19: started with `EDX = 5` and `ECX = 7` the program halts
with `EAX = 5`, `EDX = 7`, `ECX = 7` and `EIP = 8`. -/
theorem chained_moves_end_to_end_witness :
    ∃ sys', execute_instructions 1024 3 chained_moves_system = some sys'
      ∧ sys'.registers .EAX = 5
      ∧ sys'.registers .EDX = 7
      ∧ sys'.registers .ECX = 7
      ∧ sys'.registers .EIP = 8 :=
  (chained_moves_end_to_end 1024 chained_moves_system 0 (by decide) rfl).imp
    (fun _ h => ⟨h.1, h.2.1.trans (by decide), h.2.2.1.trans (by decide),
      h.2.2.2.1.trans (by decide), h.2.2.2.2⟩)

/-- The first `strtok` token once a token has been started: what was read so
far followed by the characters up to the next space. -/
theorem strtok_all_first (cs : List Char) :
    ∀ acc : List Char, acc ≠ [] →
      (strtok_all acc cs).getD 0 [] = acc.reverse ++ cs.takeWhile (fun c => c ≠ ' ') := by
  induction cs with
  | nil =>
    intro acc hacc
    cases acc with
    | nil => exact absurd rfl hacc
    | cons a as => simp [strtok_all]
  | cons c cs ih =>
    intro acc hacc
    by_cases hc : c = ' '
    · cases acc with
      | nil => exact absurd rfl hacc
      | cons a as => simp [strtok_all, hc]
    · have := ih (c :: acc) (by simp)
      rw [show strtok_all acc (c :: cs) = strtok_all (c :: acc) cs by simp [strtok_all, hc],
        this]
      simp [hc]

/-- The first token of an empty line is empty, hence no mnemonic. -/
theorem splitString_empty_line : (splitString "").1 ∉ recognised_mnemonics := by
  decide

/-- The first token of a line that starts with the label sigil starts with
that sigil, hence is no mnemonic. -/
theorem splitString_label_line (line : String) (h : line.toList.head? = some '.') :
    (splitString line).1 ∉ recognised_mnemonics := by
  obtain ⟨cs⟩ := line
  cases cs with
  | nil => simp at h
  | cons c rest =>
    have hc : c = '.' := by simpa using h
    subst hc
    have hfirst := strtok_all_first (rest.take 98) ['.'] (by simp)
    have htok : (splitString ⟨'.' :: rest⟩).1
        = String.mk ('.' :: (rest.take 98).takeWhile (fun c => c ≠ ' ')) := by
      unfold splitString
      have hne : ¬ ('.' = ' ') := by decide
      simp only [String.toList, List.take_succ_cons, strtok_all, hne, if_false,
        List.isEmpty_nil]
      rw [hfirst]
      simp
    rw [htok]
    unfold recognised_mnemonics
    intro hmem
    simp only [List.mem_cons, List.mem_singleton, List.not_mem_nil, or_false] at hmem
    rcases hmem with h | h | h | h | h | h | h | h | h | h | h | h | h <;>
      · have h2 := congrArg String.data h
        have h3 := congrArg List.head? h2
        simp at h3

/-- The first token of an empty line is empty, hence no mnemonic. -/
theorem first_token_empty_line : first_token "" ∉ recognised_mnemonics := by
  decide

/-- The first token of a line that starts with the label sigil starts with
that sigil, hence is no mnemonic. -/
theorem first_token_label_line (line : String) (h : line.toList.head? = some '.') :
    first_token line ∉ recognised_mnemonics := by
  obtain ⟨cs⟩ := line
  cases cs with
  | nil => simp at h
  | cons c rest =>
    have hc : c = '.' := by simpa using h
    subst hc
    have hsp : isspace '.' = false := by decide
    have htok : first_token ⟨'.' :: rest⟩
        = String.mk ('.' :: rest.takeWhile (fun c => !isspace c)) := by
      unfold first_token
      simp [List.dropWhile, List.takeWhile, hsp]
    rw [htok]
    unfold recognised_mnemonics
    intro hmem
    simp only [List.mem_cons, List.mem_singleton, List.not_mem_nil, or_false] at hmem
    rcases hmem with h | h | h | h | h | h | h | h | h | h | h | h | h <;>
      · have h2 := congrArg String.data h
        have h3 := congrArg List.head? h2
        simp at h3

/-- The character of a decimal digit is a digit and has that digit's value. -/
theorem digitChar_decimal (m : Nat) (h : m < 10) :
    (Nat.digitChar m).isDigit = true ∧ ((Nat.digitChar m).toNat : Int) - 48 = (m : Int) := by
  interval_cases m <;> exact ⟨by decide, by decide⟩

/-- Appending one digit to a run of digits. -/
theorem digits_value_append_one (pre : List Char) (d : Char) :
    digits_value (pre ++ [d]) = digits_value pre * 10 + ((d.toNat : Int) - 48) := by
  simp [digits_value, List.foldl_append]

/-- What `Nat.toDigitsCore 10` puts in front of its accumulator: a non-empty
run of decimal digits whose value is the number. -/
theorem toDigitsCore_decimal :
    ∀ (fuel n : Nat) (ds : List Char), n < fuel →
      ∃ pre, Nat.toDigitsCore 10 fuel n ds = pre ++ ds ∧ pre ≠ []
        ∧ (∀ c ∈ pre, c.isDigit = true) ∧ digits_value pre = (n : Int) := by
  intro fuel
  induction fuel with
  | zero => intro n ds h; omega
  | succ fuel ih =>
    intro n ds h
    have hd := digitChar_decimal (n % 10) (Nat.mod_lt n (by decide))
    by_cases h0 : n / 10 = 0
    · refine ⟨[Nat.digitChar (n % 10)], ?_, by simp, ?_, ?_⟩
      · simp [Nat.toDigitsCore, h0]
      · intro c hc
        simp at hc
        rw [hc]; exact hd.1
      · have hlt : n % 10 = n := by omega
        have := digits_value_append_one [] (Nat.digitChar (n % 10))
        simp only [List.nil_append] at this
        rw [this, hd.2, hlt]
        simp [digits_value]
    · obtain ⟨pre, hpre, _, hdig, hval⟩ :=
        ih (n / 10) (Nat.digitChar (n % 10) :: ds) (by omega)
      refine ⟨pre ++ [Nat.digitChar (n % 10)], ?_, by simp, ?_, ?_⟩
      · simp [Nat.toDigitsCore, h0, hpre]
      · intro c hc
        rcases List.mem_append.mp hc with hc | hc
        · exact hdig c hc
        · simp at hc
          rw [hc]; exact hd.1
      · rw [digits_value_append_one, hval, hd.2]
        omega

/-- The decimal rendering of a natural number is a non-empty run of digits
whose value is the number. -/
theorem repr_decimal (n : Nat) :
    (Nat.repr n).data ≠ [] ∧ (∀ c ∈ (Nat.repr n).data, c.isDigit = true)
      ∧ digits_value (Nat.repr n).data = (n : Int) := by
  obtain ⟨pre, hpre, hne, hdig, hval⟩ := toDigitsCore_decimal (n + 1) n [] (by omega)
  have hdata : (Nat.repr n).data = pre := by
    simp [Nat.repr, Nat.toDigits, hpre, List.asString]
  rw [hdata]
  exact ⟨hne, hdig, hval⟩

/-- Reading digits off the front of a list whose rest does not start with a
digit. -/
theorem takeWhile_dropWhile_digits (pre rest : List Char)
    (hpre : ∀ c ∈ pre, c.isDigit = true)
    (hrest : ∀ c, rest.head? = some c → c.isDigit = false) :
    (pre ++ rest).takeWhile Char.isDigit = pre ∧ (pre ++ rest).dropWhile Char.isDigit = rest := by
  induction pre with
  | nil =>
    cases rest with
    | nil => simp
    | cons c tl =>
      have := hrest c rfl
      simp [List.takeWhile, List.dropWhile, this]
  | cons c tl ih =>
    have hc := hpre c (by simp)
    have := ih (fun x hx => hpre x (by simp [hx]))
    simp [List.takeWhile, List.dropWhile, hc, this]

/-- A digit is not white space and not a sign. -/
theorem isDigit_not_space_sign (c : Char) (h : c.isDigit = true) :
    isspace c = false ∧ c ≠ '-' ∧ c ≠ '+' := by
  refine ⟨?_, ?_, ?_⟩
  · unfold isspace
    simp only [Bool.or_eq_false_iff, decide_eq_false_iff_not]
    refine ⟨⟨⟨⟨⟨?_, ?_⟩, ?_⟩, ?_⟩, ?_⟩, ?_⟩ <;>
      · rintro rfl
        revert h
        decide
  · rintro rfl
    revert h
    decide
  · rintro rfl
    revert h
    decide

/-- The integer scan of a run of digits, with and without a minus sign in
front, when what follows does not start with a digit. -/
theorem scan_int_digits (pre rest : List Char) (hne : pre ≠ [])
    (hpre : ∀ c ∈ pre, c.isDigit = true)
    (hrest : ∀ c, rest.head? = some c → c.isDigit = false) :
    scan_int (pre ++ rest) = some (wrap32 (digits_value pre), rest)
    ∧ scan_int ('-' :: (pre ++ rest)) = some (wrap32 (-(digits_value pre)), rest) := by
  obtain ⟨htake, hdrop⟩ := takeWhile_dropWhile_digits pre rest hpre hrest
  cases pre with
  | nil => exact absurd rfl hne
  | cons c tl =>
    obtain ⟨hsp, hminus, hplus⟩ := isDigit_not_space_sign c (hpre c (by simp))
    have hempty : (c :: tl).isEmpty = false := rfl
    have htake2 : List.takeWhile Char.isDigit (c :: (tl ++ rest)) = c :: tl := htake
    have hdrop2 : List.dropWhile Char.isDigit (c :: (tl ++ rest)) = rest := hdrop
    have hsign : (match c :: (tl ++ rest) with
        | '-' :: r => (true, r)
        | '+' :: r => (false, r)
        | r => (false, r)) = (false, c :: (tl ++ rest)) := by
      split
      · rename_i heq; simp at heq; exact absurd heq.1 hminus
      · rename_i heq; simp at heq; exact absurd heq.1 hplus
      · rfl
    constructor
    · unfold scan_int
      have h1 : List.dropWhile isspace (c :: tl ++ rest) = c :: (tl ++ rest) := by
        simp [List.dropWhile, hsp]
      simp only [h1, hsign, htake2, hdrop2, hempty]
      simp
    · unfold scan_int
      have h1 : List.dropWhile isspace ('-' :: (c :: tl ++ rest)) = '-' :: (c :: (tl ++ rest)) := by
        have : isspace '-' = false := by decide
        simp [List.dropWhile, this]
      simp only [h1, htake2, hdrop2, hempty]
      simp
/-- The integer scan reads back the decimal rendering of a 32-bit integer,
whatever non-digit follows it. -/
theorem scan_int_toString (N : Int) (h1 : -2147483648 ≤ N) (h2 : N ≤ 2147483647)
    (rest : List Char) (hrest : ∀ c, rest.head? = some c → c.isDigit = false) :
    scan_int ((toString N).data ++ rest) = some (N, rest) := by
  cases N with
  | ofNat n =>
    obtain ⟨hne, hdig, hval⟩ := repr_decimal n
    have hs : (toString (Int.ofNat n)).data = (Nat.repr n).data := rfl
    rw [hs, (scan_int_digits _ rest hne hdig hrest).1, hval]
    have : wrap32 (n : Int) = (n : Int) :=
      wrap32_of_in_range _ (by simpa using h1) (by simpa using h2)
    rw [this]
    rfl
  | negSucc m =>
    obtain ⟨hne, hdig, hval⟩ := repr_decimal (m + 1)
    have hs : (toString (Int.negSucc m)).data = '-' :: (Nat.repr (m + 1)).data := by
      show ("-" ++ Nat.repr (m + 1)).data = _
      rw [String.data_append]
      rfl
    rw [hs]
    show scan_int ('-' :: ((Nat.repr (m + 1)).data ++ rest)) = _
    rw [(scan_int_digits _ rest hne hdig hrest).2, hval]
    have e : -(((m + 1 : Nat) : Int)) = Int.negSucc m := by
      simp [Int.negSucc_eq]
    rw [e, wrap32_of_in_range _ h1 h2]

/-- The decimal rendering of an integer starts with a digit or a minus
sign. -/
theorem toString_int_head (N : Int) :
    ∃ c tl, (toString N).data = c :: tl ∧ (c.isDigit = true ∨ c = '-') := by
  cases N with
  | ofNat n =>
    obtain ⟨hne, hdig, _⟩ := repr_decimal n
    have hs : (toString (Int.ofNat n)).data = (Nat.repr n).data := rfl
    rw [hs]
    cases hd : (Nat.repr n).data with
    | nil => exact absurd hd hne
    | cons c tl => exact ⟨c, tl, rfl, Or.inl (hdig c (by simp [hd]))⟩
  | negSucc m =>
    have hs : (toString (Int.negSucc m)).data = '-' :: (Nat.repr (m + 1)).data := by
      show ("-" ++ Nat.repr (m + 1)).data = _
      rw [String.data_append]
      rfl
    exact ⟨'-', _, hs, Or.inr rfl⟩

/-- A token whose first character is not `%` is no register name. -/
theorem get_register_by_name_head (name : String) (c : Char) (tl : List Char)
    (h : name.data = c :: tl) (hc : c ≠ '%') : get_register_by_name name = .NOT_REG := by
  by_contra hne
  have hsix := (get_register_by_name_ne_not_reg name).mp hne
  rcases hsix with rfl | rfl | rfl | rfl | rfl | rfl <;>
    · have h0 := congrArg List.head? h
      simp at h0
      exact hc h0.symm

/-- C12. Constant decoding: for every integer `N` in the signed 32-bit range,
`get_memory_type` applied to `$` followed by the decimal rendering of `N`
returns kind `CONST` with register identity `NOT_REG` and value exactly
`N`. -/
theorem constant_decoding (N : Int) (h1 : -2147483648 ≤ N) (h2 : N ≤ 2147483647) :
    get_memory_type ("$" ++ toString N) = ⟨.CONST, .NOT_REG, N⟩ := by
  have hdata : ("$" ++ toString N).data = '$' :: (toString N).data := by
    rw [String.data_append]; rfl
  have hreg := get_register_by_name_head ("$" ++ toString N) '$' _ hdata (by decide)
  have hscan := scan_int_toString N h1 h2 [] (by simp)
  rw [List.append_nil] at hscan
  unfold get_memory_type
  simp only [hreg, ne_eq, not_true_eq_false, if_false, String.toList, hdata, List.head?_cons,
    if_true, List.tail_cons]
  unfold atoi
  rw [hscan]

/-- Witness for C12: the tokens `$-10`, `$0` and `$2147483647` (the renderings
of -10, 0 and 2147483647 after the sigil) decode to those constants. -/
theorem constant_decoding_witness :
    ("$" ++ toString (-10 : Int) = "$-10"
      ∧ get_memory_type ("$" ++ toString (-10 : Int)) = ⟨.CONST, .NOT_REG, -10⟩)
    ∧ ("$" ++ toString (0 : Int) = "$0"
      ∧ get_memory_type ("$" ++ toString (0 : Int)) = ⟨.CONST, .NOT_REG, 0⟩)
    ∧ ("$" ++ toString (2147483647 : Int) = "$2147483647"
      ∧ get_memory_type ("$" ++ toString (2147483647 : Int))
          = ⟨.CONST, .NOT_REG, 2147483647⟩) :=
  ⟨⟨by decide, constant_decoding (-10) (by decide) (by decide)⟩,
   ⟨by decide, constant_decoding 0 (by decide) (by decide)⟩,
   ⟨by decide, constant_decoding 2147483647 (by decide) (by decide)⟩⟩

/-- The word scan of a non-empty run of characters without white space is
that run. -/
theorem scan_word_no_space (w : List Char) (hne : w ≠ [])
    (h : ∀ c ∈ w, isspace c = false) : scan_word w = some w := by
  have hdrop : w.dropWhile isspace = w := by
    cases w with
    | nil => rfl
    | cons c tl => simp [List.dropWhile, h c (by simp)]
  have htake : w.takeWhile (fun c => !isspace c) = w := by
    rw [List.takeWhile_eq_self_iff]
    intro c hc
    simp [h c hc]
  unfold scan_word
  simp only [hdrop, htake]
  cases w with
  | nil => exact absurd rfl hne
  | cons c tl => rfl

/-- The `sscanf` of `get_memory_type` on an operand with an offset in front
of the parenthesis. -/
theorem scan_memory_operand_offset (cs rest : List Char) (v : Int)
    (hhead : ∀ r, cs ≠ '(' :: r) (hscan : scan_int cs = some (v, '(' :: rest)) :
    scan_memory_operand cs = (v, scan_word rest) := by
  unfold scan_memory_operand
  split
  · rename_i r
    exact absurd rfl (hhead r)
  · rw [hscan]
    rfl

/-- Decoding of `pfx(X)` for a word `X` without white space, once the scan of
the offset is known: memory kind if `X` is a register spelling, invalid
otherwise. -/
theorem get_memory_type_parenthesised (pfx : List Char) (v : Int) (X : String)
    (c : Char) (tl : List Char)
    (hcs : pfx ++ '(' :: (X.data ++ [')']) = c :: tl) (hc1 : c ≠ '%') (hc2 : c ≠ '$')
    (hX : ∀ x ∈ X.data, isspace x = false)
    (hscan : scan_memory_operand (pfx ++ '(' :: (X.data ++ [')']))
      = (v, scan_word (X.data ++ [')']))) :
    get_memory_type ⟨pfx ++ '(' :: (X.data ++ [')'])⟩
      = if get_register_by_name X ≠ .NOT_REG then ⟨.MEM, get_register_by_name X, v⟩
        else ⟨.UNKNOWN, .NOT_REG, v⟩ := by
  have hreg := get_register_by_name_head ⟨pfx ++ '(' :: (X.data ++ [')'])⟩ c tl hcs hc1
  have hword : scan_word (X.data ++ [')']) = some (X.data ++ [')']) := by
    apply scan_word_no_space _ (by simp)
    intro x hx
    rcases List.mem_append.mp hx with hx | hx
    · exact hX x hx
    · simp at hx
      rw [hx]; decide
  have hhead : (pfx ++ '(' :: (X.data ++ [')'])).head? ≠ some '$' := by
    rw [hcs]
    simp
    exact hc2
  have hmem : '(' ∈ pfx ++ '(' :: (X.data ++ [')']) ∧ ')' ∈ pfx ++ '(' :: (X.data ++ [')']) := by
    constructor <;> simp
  have hdrop : String.mk (X.data ++ [')']).dropLast = X := by
    simp
  unfold get_memory_type
  simp only [hreg, ne_eq, not_true_eq_false, if_false, String.toList, hhead, hmem, and_self,
    if_true, hscan, hword, hdrop]

/-- Decoding of `(X)` and of `N(X)`, `N` a 32-bit integer in decimal, for a
word `X` without white space. -/
theorem get_memory_type_memory_forms (X : String) (N : Int)
    (h1 : -2147483648 ≤ N) (h2 : N ≤ 2147483647)
    (hX : ∀ x ∈ X.data, isspace x = false) :
    get_memory_type ("(" ++ X ++ ")")
        = (if get_register_by_name X ≠ .NOT_REG then ⟨.MEM, get_register_by_name X, 0⟩
          else ⟨.UNKNOWN, .NOT_REG, 0⟩)
    ∧ get_memory_type (toString N ++ "(" ++ X ++ ")")
        = (if get_register_by_name X ≠ .NOT_REG then ⟨.MEM, get_register_by_name X, N⟩
          else ⟨.UNKNOWN, .NOT_REG, N⟩) := by
  constructor
  · have hs : ("(" ++ X ++ ")") = ⟨[] ++ '(' :: (X.data ++ [')'])⟩ := by
      apply String.ext
      simp [String.data_append]
    rw [hs]
    exact get_memory_type_parenthesised [] 0 X '(' (X.data ++ [')']) rfl (by decide)
      (by decide) hX rfl
  · have hs : (toString N ++ "(" ++ X ++ ")")
        = ⟨(toString N).data ++ '(' :: (X.data ++ [')'])⟩ := by
      apply String.ext
      simp [String.data_append]
    obtain ⟨c, tl, hc, hcd⟩ := toString_int_head N
    have hc1 : c ≠ '%' := by
      rcases hcd with h | h
      · rintro rfl; revert h; decide
      · rw [h]; decide
    have hc2 : c ≠ '$' := by
      rcases hcd with h | h
      · rintro rfl; revert h; decide
      · rw [h]; decide
    have hc3 : c ≠ '(' := by
      rcases hcd with h | h
      · rintro rfl; revert h; decide
      · rw [h]; decide
    have hscan := scan_int_toString N h1 h2 ('(' :: (X.data ++ [')'])) (by
      intro x hx
      simp at hx
      rw [← hx]; decide)
    have hmo := scan_memory_operand_offset _ _ N (by
      intro r hr
      rw [hc] at hr
      simp at hr
      exact hc3 hr.1) hscan
    rw [hs]
    exact get_memory_type_parenthesised (toString N).data N X c
      (tl ++ '(' :: (X.data ++ [')'])) (by rw [hc]; rfl) hc1 hc2 hX hmo

/-- C13, counterexample. The tokens `( %EAX)` and `8( %EAX)` have the forms
`(X)` and `N(X)` with `X` the five characters of ` %EAX` (a space first),
which is none of the six register spellings; they decode to the memory kind
with register `EAX`. -/
theorem memory_operand_counterexample :
    ¬ (" %EAX" = "%EAX" ∨ " %EAX" = "%EDX" ∨ " %EAX" = "%ECX" ∨ " %EAX" = "%ESP"
        ∨ " %EAX" = "%EBP" ∨ " %EAX" = "%EIP")
    ∧ "(" ++ " %EAX" ++ ")" = "( %EAX)"
    ∧ get_memory_type "( %EAX)" = ⟨.MEM, .EAX, 0⟩
    ∧ toString (8 : Int) ++ "(" ++ " %EAX" ++ ")" = "8( %EAX)"
    ∧ get_memory_type "8( %EAX)" = ⟨.MEM, .EAX, 8⟩ := by
  refine ⟨?_, ?_, ?_, ?_, ?_⟩ <;> decide

/-- C13, amended. For each of the six register spellings `%REG` and every
signed 32-bit integer `N`, `get_memory_type` of `(%REG)` is kind `MEM` with
that register and offset 0, and of `N(%REG)` kind `MEM` with that register
and offset `N`; and for every token `(X)` or `N(X)` where `X` contains no
white-space character and is not one of the six spellings, the returned kind
is `UNKNOWN`. -/
theorem memory_operand_decoding (X : String) (N : Int)
    (h1 : -2147483648 ≤ N) (h2 : N ≤ 2147483647) :
    ((X = "%EAX" ∨ X = "%EDX" ∨ X = "%ECX" ∨ X = "%ESP" ∨ X = "%EBP" ∨ X = "%EIP") →
        get_register_by_name X ≠ .NOT_REG
        ∧ get_memory_type ("(" ++ X ++ ")") = ⟨.MEM, get_register_by_name X, 0⟩
        ∧ get_memory_type (toString N ++ "(" ++ X ++ ")") = ⟨.MEM, get_register_by_name X, N⟩)
    ∧ (¬ (X = "%EAX" ∨ X = "%EDX" ∨ X = "%ECX" ∨ X = "%ESP" ∨ X = "%EBP" ∨ X = "%EIP") →
        (∀ x ∈ X.data, isspace x = false) →
        (get_memory_type ("(" ++ X ++ ")")).type = .UNKNOWN
        ∧ (get_memory_type (toString N ++ "(" ++ X ++ ")")).type = .UNKNOWN) := by
  constructor
  · intro hsix
    have hreg := (get_register_by_name_ne_not_reg X).mpr hsix
    have hX : ∀ x ∈ X.data, isspace x = false := by
      rcases hsix with rfl | rfl | rfl | rfl | rfl | rfl <;> decide
    have h := get_memory_type_memory_forms X N h1 h2 hX
    simp only [hreg, ne_eq, not_false_eq_true, if_true] at h
    exact ⟨hreg, h.1, h.2⟩
  · intro hnot hX
    have hreg : get_register_by_name X = .NOT_REG := by
      by_contra hne
      exact hnot ((get_register_by_name_ne_not_reg X).mp hne)
    have h := get_memory_type_memory_forms X N h1 h2 hX
    simp only [hreg, ne_eq, not_true_eq_false, if_false] at h
    rw [h.1, h.2]
    exact ⟨rfl, rfl⟩

/-- Witness for C13 (amended): `-20(%ESP)` decodes to memory at `ESP` with
offset -20, `(%ESP)` to offset 0, and `(%ESX)`, `-20(%ESX)` to the invalid
kind. -/
theorem memory_operand_decoding_witness :
    (toString (-20 : Int) ++ "(" ++ "%ESP" ++ ")" = "-20(%ESP)"
      ∧ get_memory_type ("(" ++ "%ESP" ++ ")") = ⟨.MEM, get_register_by_name "%ESP", 0⟩
      ∧ get_memory_type (toString (-20 : Int) ++ "(" ++ "%ESP" ++ ")")
          = ⟨.MEM, get_register_by_name "%ESP", -20⟩)
    ∧ ((get_memory_type ("(" ++ "%ESX" ++ ")")).type = .UNKNOWN
      ∧ (get_memory_type (toString (-20 : Int) ++ "(" ++ "%ESX" ++ ")")).type = .UNKNOWN) :=
  have ha := (memory_operand_decoding "%ESP" (-20) (by decide) (by decide)).1
    (by decide)
  have hb := (memory_operand_decoding "%ESX" (-20) (by decide) (by decide)).2
    (by decide) (by decide)
  ⟨⟨by decide, ha.2.1, ha.2.2⟩, hb⟩

/-- The copying loop of `reformat` does not start its output with a space
when a space was just kept or the input does not start with one. -/
theorem reformat_loop_head :
    ∀ (cs : List Char) (flag : Bool), (flag = true ∨ cs.head? ≠ some ' ') →
      (reformat_loop cs flag).head? ≠ some ' ' := by
  intro cs
  induction cs with
  | nil => intro flag _; simp [reformat_loop]
  | cons c cs ih =>
    intro flag h
    by_cases hn : c = '\n'
    · simp [reformat_loop, hn]
    · by_cases hs : c = ' '
      · subst hs
        have hflag : flag = true := by
          rcases h with h | h
          · exact h
          · simp at h
        subst hflag
        have := ih true (Or.inl rfl)
        simpa [reformat_loop] using this
      · simp [reformat_loop, hn, hs]

/-- The copying loop of `reformat` never keeps two spaces in a row. -/
theorem reformat_loop_chain :
    ∀ (cs : List Char) (flag : Bool),
      List.Chain' (fun a b => ¬ (a = ' ' ∧ b = ' ')) (reformat_loop cs flag) := by
  intro cs
  induction cs with
  | nil => intro flag; simp [reformat_loop]
  | cons c cs ih =>
    intro flag
    by_cases hn : c = '\n'
    · simp [reformat_loop, hn]
    · by_cases hs : c = ' '
      · subst hs
        cases flag with
        | true => simpa [reformat_loop] using ih true
        | false =>
          have hhead := reformat_loop_head cs true (Or.inl rfl)
          have hrest := ih true
          simp only [reformat_loop, hn, if_false, if_true, Bool.not_false]
          rw [List.chain'_cons']
          refine ⟨?_, hrest⟩
          intro b hb hab
          rw [hab.2] at hb
          exact hhead (by simpa using hb)
      · simp only [reformat_loop, hn, hs, if_false]
        rw [List.chain'_cons']
        refine ⟨?_, ih false⟩
        intro b _ hab
        exact hs hab.1

/-- The copying loop of `reformat` keeps no newline. -/
theorem reformat_loop_no_newline :
    ∀ (cs : List Char) (flag : Bool), '\n' ∉ reformat_loop cs flag := by
  intro cs
  induction cs with
  | nil => intro flag; simp [reformat_loop]
  | cons c cs ih =>
    intro flag
    by_cases hn : c = '\n'
    · simp [reformat_loop, hn]
    · by_cases hs : c = ' '
      · subst hs
        cases flag with
        | true => simpa [reformat_loop] using ih true
        | false =>
          have := ih true
          simp [reformat_loop, this]
      · have := ih false
        simp [reformat_loop, hn, hs, this]
        intro hc
        exact hn hc.symm

/-- The counter of `reformat` goes up by the number of characters kept. -/
theorem reformat_size_eq :
    ∀ (cs : List Char) (flag : Bool) (size : Int),
      reformat_size cs flag size = size + ((reformat_loop cs flag).length : Int) := by
  intro cs
  induction cs with
  | nil => intro flag size; simp [reformat_size, reformat_loop]
  | cons c cs ih =>
    intro flag size
    by_cases hn : c = '\n'
    · simp [reformat_size, reformat_loop, hn]
    · by_cases hs : c = ' '
      · subst hs
        cases flag with
        | true => simpa [reformat_size, reformat_loop] using ih true size
        | false =>
          simp only [reformat_size, reformat_loop, hn, if_false, if_true, Bool.not_false,
            List.length_cons]
          rw [ih true (size + 1)]
          push_cast
          ring
      · simp only [reformat_size, reformat_loop, hn, hs, if_false, List.length_cons]
        rw [ih false (size + 1)]
        push_cast
        ring

/-- What is left after dropping the leading spaces does not start with a
space. -/
theorem dropWhile_space_head (cs : List Char) :
    (cs.dropWhile (fun c => c = ' ')).head? ≠ some ' ' := by
  induction cs with
  | nil => simp
  | cons c cs ih =>
    by_cases hs : c = ' '
    · simpa [List.dropWhile, hs] using ih
    · simp [List.dropWhile, hs]

/-- C21, the code at the failing input. `reformat` turns the line `END`,
space, newline into `END` followed by a space and returns 4: the string it
leaves ends in a space.  The same happens to a label line, and the line kept
for `.L`, space, newline is then not found by `get_addr_from_label` under the
name `.L`, which compares whole lines. -/
theorem reformat_keeps_trailing_space :
    reformat "END \n" = ("END ", 4)
    ∧ (reformat "END \n").1.data.getLast? = some ' '
    ∧ (reformat ".L \n").1 = ".L "
    ∧ get_addr_from_label
        { sample_system with
          memory := { sample_system.memory with instruction := [(reformat ".L \n").1, "END"] } }
        ".L" = -1 := by
  refine ⟨?_, ?_, ?_, ?_⟩ <;> decide

/-- What `reformat` does achieve on every input line: the string it leaves
has no leading space, no two consecutive spaces and no newline character, and
the integer it returns equals the length of that string. -/
theorem reformat_normalises (line : String) :
    (reformat line).1.data.head? ≠ some ' '
    ∧ List.Chain' (fun a b => ¬ (a = ' ' ∧ b = ' ')) (reformat line).1.data
    ∧ '\n' ∉ (reformat line).1.data
    ∧ (reformat line).2 = ((reformat line).1.length : Int) := by
  unfold reformat
  refine ⟨?_, ?_, ?_, ?_⟩
  · exact reformat_loop_head _ false (Or.inr (dropWhile_space_head _))
  · exact reformat_loop_chain _ false
  · exact reformat_loop_no_newline _ false
  · simp only [String.length]
    rw [reformat_size_eq]
    simp

/-- Where `execute_jmp` leaves `EIP` for the mnemonics JE, JL and JG when the
label resolves to an in-range address `t`. -/
theorem jmp_eip_after (MEMORY_SIZE : Int) (sys : System) (label : String) (t : Int)
    (ht : get_addr_from_label sys label = t) (hrange : valid_address MEMORY_SIZE t) :
    (execute_jmp MEMORY_SIZE sys "JE" label).2.registers .EIP
        = (if sys.comparison_flag = 0 then t else wrap32 (sys.registers .EIP + 4))
    ∧ (execute_jmp MEMORY_SIZE sys "JL" label).2.registers .EIP
        = (if sys.comparison_flag < 0 then t else wrap32 (sys.registers .EIP + 4))
    ∧ (execute_jmp MEMORY_SIZE sys "JG" label).2.registers .EIP
        = (if sys.comparison_flag > 0 then t else wrap32 (sys.registers .EIP + 4)) := by
  unfold valid_address at hrange
  have hc : ¬ (t < 0 ∨ t > (MEMORY_SIZE - 1) * 4) := by
    intro h; rcases h with h | h <;> omega
  have e1 : ¬ ("JL" = "JE") := by decide
  have e2 : ¬ ("JL" = "JNE") := by decide
  have e3 : ¬ ("JG" = "JE") := by decide
  have e4 : ¬ ("JG" = "JNE") := by decide
  have e5 : ¬ ("JG" = "JL") := by decide
  refine ⟨?_, ?_, ?_⟩
  · unfold execute_jmp
    simp only [ht, hc, if_false, if_true]
    split_ifs <;> simp [System.setReg]
  · unfold execute_jmp
    simp only [ht, hc, e1, e2, if_false, if_true]
    split_ifs <;> simp [System.setReg]
  · unfold execute_jmp
    simp only [ht, hc, e3, e4, e5, if_false, if_true]
    split_ifs <;> simp [System.setReg]

/-- C23, counterexample. With `x = EAX = -2147483648` (the value subtracted
from) and `y = EDX = 1` (the value subtracted), `execute_cmpl` succeeds and
the wrapped difference is the flag 2147483647: positive although `x < y`.
The `JL` that follows does not branch to the label (address 12) and goes on
to `EIP + 4 = 4`, and a `JG` would branch. -/
theorem cmpl_sign_counterexample :
    (execute_cmpl 1024 overflow_compare_system "%EDX" "%EAX").1 = .SUCCESS
    ∧ overflow_compare_system.registers .EAX = -2147483648
    ∧ overflow_compare_system.registers .EDX = 1
    ∧ (execute_cmpl 1024 overflow_compare_system "%EDX" "%EAX").2.comparison_flag = 2147483647
    ∧ get_addr_from_label overflow_compare_system ".L" = 12
    ∧ (execute_jmp 1024 (execute_cmpl 1024 overflow_compare_system "%EDX" "%EAX").2
          "JL" ".L").2.registers .EIP = 4
    ∧ (execute_jmp 1024 (execute_cmpl 1024 overflow_compare_system "%EDX" "%EAX").2
          "JG" ".L").2.registers .EIP = 12 := by
  refine ⟨?_, ?_, ?_, ?_, ?_, ?_, ?_⟩ <;> decide

/-- C23, amended. For every machine state and two register operands holding
32-bit values `x` (the destination, which `execute_cmpl` subtracts from) and
`y` (the source, which it subtracts), `execute_cmpl` succeeds and sets the
flag to the wrapped difference; the flag is zero iff `x = y`, and when
`x - y` itself fits in 32 bits it is negative iff `x < y` and positive iff
`x > y`.  Consequently, for every label that resolves to an in-range address,
a following JE branches exactly when `x = y`, and when `x - y` fits in 32
bits a following JL / JG branches exactly when `x < y` / `x > y`; a jump that
does not branch leaves `EIP + 4`. -/
theorem cmpl_flag_sign (MEMORY_SIZE : Int) (sys : System) (src dst : String)
    (rs rd : RegisterName) (vs vd x y : Int)
    (hsrc : get_memory_type src = ⟨.REG, rs, vs⟩)
    (hdst : get_memory_type dst = ⟨.REG, rd, vd⟩)
    (hx : sys.registers rd = x) (hy : sys.registers rs = y)
    (hxr : -2147483648 ≤ x ∧ x ≤ 2147483647) (hyr : -2147483648 ≤ y ∧ y ≤ 2147483647) :
    (execute_cmpl MEMORY_SIZE sys src dst).1 = .SUCCESS
    ∧ (execute_cmpl MEMORY_SIZE sys src dst).2.comparison_flag = wrap32 (x - y)
    ∧ ((execute_cmpl MEMORY_SIZE sys src dst).2.comparison_flag = 0 ↔ x = y)
    ∧ ((-2147483648 ≤ x - y ∧ x - y ≤ 2147483647) →
        ((execute_cmpl MEMORY_SIZE sys src dst).2.comparison_flag < 0 ↔ x < y)
        ∧ ((execute_cmpl MEMORY_SIZE sys src dst).2.comparison_flag > 0 ↔ x > y))
    ∧ (∀ (label : String) (t : Int),
        get_addr_from_label sys label = t → valid_address MEMORY_SIZE t →
        (execute_jmp MEMORY_SIZE (execute_cmpl MEMORY_SIZE sys src dst).2 "JE"
            label).2.registers .EIP = (if x = y then t else wrap32 (sys.registers .EIP + 4))
        ∧ ((-2147483648 ≤ x - y ∧ x - y ≤ 2147483647) →
          (execute_jmp MEMORY_SIZE (execute_cmpl MEMORY_SIZE sys src dst).2 "JL"
              label).2.registers .EIP = (if x < y then t else wrap32 (sys.registers .EIP + 4))
          ∧ (execute_jmp MEMORY_SIZE (execute_cmpl MEMORY_SIZE sys src dst).2 "JG"
                label).2.registers .EIP
              = (if x > y then t else wrap32 (sys.registers .EIP + 4)))) := by
  have hrun : execute_cmpl MEMORY_SIZE sys src dst
      = (.SUCCESS, sys.setFlag (wrap32 (x - y))) := by
    unfold execute_cmpl execute_cmpl_second
    simp only [hsrc, hdst, hx, hy]
  have hzero : wrap32 (x - y) = 0 ↔ x = y := by
    unfold wrap32
    constructor
    · intro h; omega
    · intro h; subst h; simp
  have hsign : (-2147483648 ≤ x - y ∧ x - y ≤ 2147483647) →
      (wrap32 (x - y) < 0 ↔ x < y) ∧ (wrap32 (x - y) > 0 ↔ x > y) := by
    intro hfit
    have hw : wrap32 (x - y) = x - y := wrap32_of_in_range _ hfit.1 hfit.2
    rw [hw]
    constructor <;> omega
  rw [hrun]
  refine ⟨rfl, rfl, hzero, hsign, ?_⟩
  intro label t ht hrange
  have hlabel : get_addr_from_label (sys.setFlag (wrap32 (x - y))) label = t := ht
  have hj := jmp_eip_after MEMORY_SIZE (sys.setFlag (wrap32 (x - y))) label t hlabel hrange
  have hflag : (sys.setFlag (wrap32 (x - y))).comparison_flag = wrap32 (x - y) := rfl
  have heip : (sys.setFlag (wrap32 (x - y))).registers .EIP = sys.registers .EIP := rfl
  simp only [hflag, heip] at hj
  refine ⟨?_, ?_⟩
  · rw [hj.1]
    simp only [hzero]
  · intro hfit
    obtain ⟨hneg, hpos⟩ := hsign hfit
    refine ⟨?_, ?_⟩
    · rw [hj.2.1]
      simp only [hneg]
    · rw [hj.2.2]
      simp only [hpos]

/-- Witness for C23 (amended): on the sample machine, whose store is empty,
comparing `%EAX = 0` (subtracted) against `%ESP = 768` gives the flag 768,
positive as `768 > 0`; on `label_system` the same compare is followed by a
`JG` that branches to the label at 8 and by a `JE` that goes on to 4. -/
theorem cmpl_flag_sign_witness :
    ((execute_cmpl 1024 sample_system "%EAX" "%ESP").1 = .SUCCESS
      ∧ (execute_cmpl 1024 sample_system "%EAX" "%ESP").2.comparison_flag = 768
      ∧ ((execute_cmpl 1024 sample_system "%EAX" "%ESP").2.comparison_flag > 0
          ↔ (768 : Int) > 0))
    ∧ ((execute_jmp 1024 (execute_cmpl 1024 label_system "%EAX" "%ESP").2 "JE"
          ".L").2.registers .EIP = 4
      ∧ (execute_jmp 1024 (execute_cmpl 1024 label_system "%EAX" "%ESP").2 "JG"
          ".L").2.registers .EIP = 8) :=
  have hs := cmpl_flag_sign 1024 sample_system "%EAX" "%ESP" .EAX .ESP (-1) (-1) 768 0
    (by decide) (by decide) (by decide) (by decide) (by decide) (by decide)
  have hl := cmpl_flag_sign 1024 label_system "%EAX" "%ESP" .EAX .ESP (-1) (-1) 768 0
    (by decide) (by decide) (by decide) (by decide) (by decide) (by decide)
  have hj := hl.2.2.2.2 ".L" 8 (by decide) (by decide)
  ⟨⟨hs.1, hs.2.1.trans (by decide), (hs.2.2.2.1 (by decide)).2⟩,
   ⟨hj.1.trans (by decide), (hj.2 (by decide)).2.trans (by decide)⟩⟩

/-- No data executor writes the instruction store. -/
theorem data_executors_store (MEMORY_SIZE : Int) (sys : System) (src dst : String) :
    (execute_movl MEMORY_SIZE sys src dst).2.memory.instruction = sys.memory.instruction
    ∧ (execute_addl MEMORY_SIZE sys src dst).2.memory.instruction = sys.memory.instruction
    ∧ (execute_push MEMORY_SIZE sys src).2.memory.instruction = sys.memory.instruction
    ∧ (execute_pop MEMORY_SIZE sys src).2.memory.instruction = sys.memory.instruction
    ∧ (execute_cmpl MEMORY_SIZE sys src dst).2.memory.instruction = sys.memory.instruction := by
  refine ⟨?_, ?_, ?_, ?_, ?_⟩
  · unfold execute_movl
    generalize get_memory_type src = s
    generalize get_memory_type dst = d
    rcases s with ⟨st, sr, sv⟩
    rcases d with ⟨dt, dr, dv⟩
    cases st <;> cases dt <;> simp only [] <;> (try split_ifs) <;> rfl
  · unfold execute_addl
    generalize get_memory_type src = s
    generalize get_memory_type dst = d
    rcases s with ⟨st, sr, sv⟩
    rcases d with ⟨dt, dr, dv⟩
    cases st <;> cases dt <;> simp only [] <;> (try split_ifs) <;> rfl
  · unfold execute_push
    generalize get_memory_type src = s
    rcases s with ⟨st, sr, sv⟩
    cases st <;> simp only [] <;> (try split_ifs) <;> rfl
  · unfold execute_pop
    generalize get_memory_type src = s
    rcases s with ⟨st, sr, sv⟩
    cases st <;> simp only [] <;> (try split_ifs) <;> rfl
  · unfold execute_cmpl execute_cmpl_second
    generalize get_memory_type src = s
    generalize get_memory_type dst = d
    rcases s with ⟨st, sr, sv⟩
    rcases d with ⟨dt, dr, dv⟩
    cases st <;> cases dt <;> simp only [] <;> (try split_ifs) <;> rfl

/-- `execute_movl` does not look at `EIP` when no operand names it. -/
theorem movl_setReg_eip (MEMORY_SIZE : Int) (sys : System) (src dst : String) (v : Int)
    (hs : ¬ names_eip src) (hd : ¬ names_eip dst) :
    execute_movl MEMORY_SIZE (sys.setReg .EIP v) src dst
      = ((execute_movl MEMORY_SIZE sys src dst).1,
         (execute_movl MEMORY_SIZE sys src dst).2.setReg .EIP v) := by
  unfold names_eip at hs hd
  unfold execute_movl
  generalize get_memory_type src = s at hs ⊢
  generalize get_memory_type dst = d at hd ⊢
  rcases s with ⟨st, sr, sv⟩
  rcases d with ⟨dt, dr, dv⟩
  simp only at hs hd
  have hs' : sr ≠ .EIP := hs
  have hd' : dr ≠ .EIP := hd
  cases st <;> cases dt <;>
    simp only [System.setReg, Function.update_noteq hs', Function.update_noteq hd'] <;>
    (try split_ifs) <;>
    first
      | rfl
      | simp [System.setData, Function.update_comm hd']

/-- `execute_addl` does not look at `EIP` when no operand names it. -/
theorem addl_setReg_eip (MEMORY_SIZE : Int) (sys : System) (src dst : String) (v : Int)
    (hs : ¬ names_eip src) (hd : ¬ names_eip dst) :
    execute_addl MEMORY_SIZE (sys.setReg .EIP v) src dst
      = ((execute_addl MEMORY_SIZE sys src dst).1,
         (execute_addl MEMORY_SIZE sys src dst).2.setReg .EIP v) := by
  unfold names_eip at hs hd
  unfold execute_addl
  generalize get_memory_type src = s at hs ⊢
  generalize get_memory_type dst = d at hd ⊢
  rcases s with ⟨st, sr, sv⟩
  rcases d with ⟨dt, dr, dv⟩
  simp only at hs hd
  have hs' : sr ≠ .EIP := hs
  have hd' : dr ≠ .EIP := hd
  cases st <;> cases dt <;>
    simp only [System.setReg, Function.update_noteq hs', Function.update_noteq hd'] <;>
    (try split_ifs) <;>
    first
      | rfl
      | simp [System.setData, Function.update_comm hd']

/-- `execute_push` does not look at `EIP` when its operand does not name
it. -/
theorem push_setReg_eip (MEMORY_SIZE : Int) (sys : System) (src : String) (v : Int)
    (hs : ¬ names_eip src) :
    execute_push MEMORY_SIZE (sys.setReg .EIP v) src
      = ((execute_push MEMORY_SIZE sys src).1,
         (execute_push MEMORY_SIZE sys src).2.setReg .EIP v) := by
  unfold names_eip at hs
  unfold execute_push
  generalize get_memory_type src = s at hs ⊢
  rcases s with ⟨st, sr, sv⟩
  simp only at hs
  have hs' : sr ≠ .EIP := hs
  have hne : RegisterName.ESP ≠ RegisterName.EIP := by decide
  cases st <;>
    simp only [System.setReg, System.setData, Function.update_noteq hs',
      Function.update_noteq hne, Function.update_same] <;>
    (try split_ifs) <;>
    first
      | rfl
      | simp [Function.update_comm hne]

/-- `execute_pop` does not look at `EIP` when its operand does not name
it. -/
theorem pop_setReg_eip (MEMORY_SIZE : Int) (sys : System) (dst : String) (v : Int)
    (hd : ¬ names_eip dst) :
    execute_pop MEMORY_SIZE (sys.setReg .EIP v) dst
      = ((execute_pop MEMORY_SIZE sys dst).1,
         (execute_pop MEMORY_SIZE sys dst).2.setReg .EIP v) := by
  unfold names_eip at hd
  unfold execute_pop
  generalize get_memory_type dst = d at hd ⊢
  rcases d with ⟨dt, dr, dv⟩
  simp only at hd
  have hd' : dr ≠ .EIP := hd
  have hne : RegisterName.ESP ≠ RegisterName.EIP := by decide
  by_cases hesp : dr = .ESP
  · subst hesp
    cases dt <;>
      simp only [System.setReg, System.setData, Function.update_noteq hne,
        Function.update_same] <;>
      (try split_ifs) <;>
      first
        | rfl
        | simp [Function.update_comm hne]
  · have hesp' : RegisterName.ESP ≠ dr := fun h => hesp h.symm
    cases dt <;>
      simp only [System.setReg, System.setData, Function.update_noteq hd',
        Function.update_noteq hne, Function.update_noteq hesp', Function.update_same] <;>
      (try split_ifs) <;>
      first
        | rfl
        | simp [Function.update_comm hne, Function.update_comm hd']

/-- `execute_cmpl` does not look at `EIP` when no operand names it. -/
theorem cmpl_setReg_eip (MEMORY_SIZE : Int) (sys : System) (src dst : String) (v : Int)
    (hs : ¬ names_eip src) (hd : ¬ names_eip dst) :
    execute_cmpl MEMORY_SIZE (sys.setReg .EIP v) src dst
      = ((execute_cmpl MEMORY_SIZE sys src dst).1,
         (execute_cmpl MEMORY_SIZE sys src dst).2.setReg .EIP v) := by
  unfold names_eip at hs hd
  unfold execute_cmpl execute_cmpl_second
  generalize get_memory_type src = s at hs ⊢
  generalize get_memory_type dst = d at hd ⊢
  rcases s with ⟨st, sr, sv⟩
  rcases d with ⟨dt, dr, dv⟩
  simp only at hs hd
  have hs' : sr ≠ .EIP := hs
  have hd' : dr ≠ .EIP := hd
  cases st <;> cases dt <;>
    simp only [System.setReg, System.setFlag, Function.update_noteq hs',
      Function.update_noteq hd'] <;>
    (try split_ifs) <;>
    rfl

/-- The executor of a straight-line line does not look at `EIP`: run from a
state with another `EIP` it leaves the same state up to that `EIP`. -/
theorem execute_line_setReg_eip (MEMORY_SIZE : Int) (sys : System) (line : String) (v : Int)
    (h : straight_line line) :
    execute_line MEMORY_SIZE (sys.setReg .EIP v) line
      = (execute_line MEMORY_SIZE sys line).setReg .EIP v := by
  obtain ⟨_, h3, h2⟩ := h
  unfold execute_line
  split_ifs with m1 m2 m3 m4 m5
  · rw [movl_setReg_eip _ _ _ _ _ (h3 (Or.inl m1)).1 (h3 (Or.inl m1)).2]
  · rw [addl_setReg_eip _ _ _ _ _ (h3 (Or.inr (Or.inl m2))).1 (h3 (Or.inr (Or.inl m2))).2]
  · rw [push_setReg_eip _ _ _ _ (h2 (Or.inl m3))]
  · rw [pop_setReg_eip _ _ _ _ (h2 (Or.inr m4))]
  · rw [cmpl_setReg_eip _ _ _ _ _ (h3 (Or.inr (Or.inr m5))).1 (h3 (Or.inr (Or.inr m5))).2]
  · rfl

/-- No data executor writes the instruction store. -/
theorem execute_line_instruction (MEMORY_SIZE : Int) (sys : System) (line : String) :
    (execute_line MEMORY_SIZE sys line).memory.instruction = sys.memory.instruction := by
  have h := data_executors_store MEMORY_SIZE sys (splitString line).2.1 (splitString line).2.2
  unfold execute_line
  split_ifs
  · exact h.1
  · exact h.2.1
  · exact h.2.2.1
  · exact h.2.2.2.1
  · exact h.2.2.2.2
  · rfl

/-- One iteration of the loop on a straight-line line runs the line's
executor and advances the program counter. -/
theorem execute_step_straight_line (MEMORY_SIZE : Int) (sys : System) (i : Nat)
    (line : String)
    (heip : sys.registers .EIP = 4 * (i : Int))
    (hline : sys.memory.instruction.get? i = some line)
    (h : straight_line line) :
    execute_step MEMORY_SIZE sys = .running (execute_line MEMORY_SIZE sys line).advance := by
  obtain ⟨h1, _, _⟩ := h
  simp only [List.mem_cons, List.mem_singleton, List.not_mem_nil, or_false, not_or] at h1
  obtain ⟨n1, n2, n3, n4, n5, n6, n7, n8⟩ := h1
  have hidx : (sys.registers .EIP).tdiv 4 = (i : Int) := by
    rw [heip]; simp [Int.mul_tdiv_cancel_left]
  have hn : ¬ ((i : Int) < 0) := by omega
  unfold execute_step execute_line
  simp only [hidx, Int.toNat_ofNat, hline, hn, if_false, n1, n2, n3, n4, n5, n6, n7, n8,
    or_self]
  split_ifs <;> rfl

/-- Advancing a state whose `EIP` was just set to `4 * i`. -/
theorem advance_setReg_eip (sys : System) (i : Nat)
    (hcap : 4 * ((i + 1 : Nat) : Int) ≤ 2147483647) :
    (sys.setReg .EIP (4 * (i : Int))).advance = sys.setReg .EIP (4 * ((i + 1 : Nat) : Int)) := by
  have hw : wrap32 (4 * (i : Int) + 4) = 4 * ((i + 1 : Nat) : Int) := by
    rw [wrap32_of_in_range _ (by omega) (by push_cast at hcap; omega)]
    push_cast
    ring
  simp only [System.advance, System.setReg, Function.update_same, Function.update_idem, hw]

/-- The loop on a store `done ++ rest ++ [END]` of straight-line lines, entered
at the first line of `rest`: it leaves through the end marker in iteration
`rest.length + 1`, not earlier, in the state the executors of `rest` build in
order, with `EIP` at the end marker. -/
theorem run_straight_line (MEMORY_SIZE : Int) :
    ∀ (rest done : List String) (F : System),
      F.memory.instruction = done ++ rest ++ ["END"] →
      (∀ l ∈ rest, straight_line l) →
      4 * ((done.length + rest.length : Nat) : Int) ≤ 2147483647 →
      execute_instructions MEMORY_SIZE (rest.length + 1)
          (F.setReg .EIP (4 * ((done.length : Nat) : Int)))
        = some ((rest.foldl (execute_line MEMORY_SIZE) F).setReg .EIP
            (4 * ((done.length + rest.length : Nat) : Int)))
      ∧ ∀ fuel, fuel ≤ rest.length →
          execute_instructions MEMORY_SIZE fuel
            (F.setReg .EIP (4 * ((done.length : Nat) : Int))) = none := by
  intro rest
  induction rest with
  | nil =>
    intro done F hprog _ _
    have hsplit : splitString "END" = ("END", "", "") := by decide
    have hidx : (4 * ((done.length : Nat) : Int)).tdiv 4 = (done.length : Int) := by
      simp [Int.mul_tdiv_cancel_left]
    have hn : ¬ (((done.length : Nat) : Int) < 0) := by omega
    have hget : (done ++ [] ++ ["END"]).get? done.length = some "END" := by
      rw [List.append_assoc, List.get?_eq_getElem?, List.getElem?_append_right (le_refl _)]
      simp
    have hstep : execute_step MEMORY_SIZE (F.setReg .EIP (4 * ((done.length : Nat) : Int)))
        = .halted (F.setReg .EIP (4 * ((done.length : Nat) : Int))) := by
      unfold execute_step
      simp only [System.setReg, Function.update_same, hidx, hn, if_false, Int.toNat_ofNat,
        hprog, hget, hsplit]
      simp
    refine ⟨?_, ?_⟩
    · simp only [List.length_nil, Nat.zero_add, execute_instructions, hstep, List.foldl_nil,
        Nat.add_zero]
    · intro fuel hfuel
      have : fuel = 0 := by simpa using hfuel
      subst this
      rfl
  | cons l rest ih =>
    intro done F hprog hlines hcap
    have hl : straight_line l := hlines l (by simp)
    have hrest : ∀ x ∈ rest, straight_line x := fun x hx => hlines x (by simp [hx])
    have hget : (F.setReg .EIP (4 * ((done.length : Nat) : Int))).memory.instruction.get?
        done.length = some l := by
      show F.memory.instruction.get? done.length = some l
      rw [hprog, List.append_assoc, List.get?_eq_getElem?,
        List.getElem?_append_right (le_refl _)]
      simp
    have hstep := execute_step_straight_line MEMORY_SIZE
      (F.setReg .EIP (4 * ((done.length : Nat) : Int))) done.length l
      (by simp [System.setReg]) hget hl
    rw [execute_line_setReg_eip _ _ _ _ hl,
      advance_setReg_eip _ _ (by
        simp only [List.length_cons] at hcap
        push_cast at hcap ⊢
        omega)] at hstep
    have hprog' : (execute_line MEMORY_SIZE F l).memory.instruction
        = (done ++ [l]) ++ rest ++ ["END"] := by
      rw [execute_line_instruction, hprog]
      simp
    have hlen : (done ++ [l]).length = done.length + 1 := by simp
    have hcap' : 4 * (((done ++ [l]).length + rest.length : Nat) : Int) ≤ 2147483647 := by
      rw [hlen]
      simp only [List.length_cons] at hcap
      have e : done.length + 1 + rest.length = done.length + (rest.length + 1) := by omega
      rw [e]
      exact hcap
    have h := ih (done ++ [l]) (execute_line MEMORY_SIZE F l) hprog' hrest hcap'
    rw [hlen] at h
    refine ⟨?_, ?_⟩
    · show execute_instructions MEMORY_SIZE ((rest.length + 1) + 1) _ = _
      rw [execute_instructions, hstep]
      simp only []
      rw [h.1]
      simp only [List.foldl_cons, List.length_cons]
      have e : done.length + 1 + rest.length = done.length + (rest.length + 1) := by omega
      rw [e]
    · intro fuel hfuel
      cases fuel with
      | zero => rfl
      | succ f =>
        rw [execute_instructions, hstep]
        simp only []
        exact h.2 f (by simpa using hfuel)

/-- C22, counterexample. The store `NOP` / `MOVL %EIP %EAX` / `END` has an
unrecognised line and a MOVL whose destination is `%EAX`; started with
`EIP = 0` and `EAX = 0` the loop halts in its third iteration with `EAX = 4`
(the move reads the program counter, which the loop has advanced), while
applying the executors of the two lines in order gives `EAX = 0`. -/
theorem straight_line_counterexample :
    (splitString "NOP").1 ∉ recognised_mnemonics
    ∧ splitString "MOVL %EIP %EAX" = ("MOVL", "%EIP", "%EAX")
    ∧ read_eip_system.registers .EIP = 0
    ∧ (execute_instructions 1024 3 read_eip_system).map (fun s => s.registers .EAX) = some 4
    ∧ (["NOP", "MOVL %EIP %EAX"].foldl (execute_line 1024) read_eip_system).registers .EAX
        = 0 := by
  refine ⟨?_, ?_, ?_, ?_, ?_⟩ <;> decide

/-- C22, amended. For every store of `k` lines followed by `END`, `4 * k`
within the 32-bit range, where each of the `k` lines has a first token that
is MOVL, ADDL, CMPL, PUSHL, POPL or unrecognised and no operand used by its
executor names `%EIP` (as a register or as the base of a memory operand),
`execute_instructions` started with `EIP = 0` executes the `k` lines and
leaves through `END` in iteration `k + 1`, not earlier, with `EIP = 4 * k`;
the final registers other than `EIP`, data memory and comparison flag are
those obtained by applying the executors to the lines in order, each result
ignored. -/
theorem straight_line_program (MEMORY_SIZE : Int) (sys : System) (lines : List String)
    (heip : sys.registers .EIP = 0)
    (hprog : sys.memory.instruction = lines ++ ["END"])
    (hcap : 4 * ((lines.length : Nat) : Int) ≤ 2147483647)
    (hlines : ∀ l ∈ lines, straight_line l) :
    ∃ sys', execute_instructions MEMORY_SIZE (lines.length + 1) sys = some sys'
      ∧ (∀ fuel, fuel ≤ lines.length → execute_instructions MEMORY_SIZE fuel sys = none)
      ∧ sys'.registers .EIP = 4 * ((lines.length : Nat) : Int)
      ∧ (∀ r, r ≠ .EIP →
          sys'.registers r = (lines.foldl (execute_line MEMORY_SIZE) sys).registers r)
      ∧ (∀ i, sys'.memory.data i = (lines.foldl (execute_line MEMORY_SIZE) sys).memory.data i)
      ∧ sys'.comparison_flag = (lines.foldl (execute_line MEMORY_SIZE) sys).comparison_flag := by
  have hstart : sys.setReg .EIP (4 * (((([] : List String).length : Nat)) : Int)) = sys := by
    simp only [System.setReg, List.length_nil, Nat.cast_zero, mul_zero]
    rw [← heip, Function.update_eq_self]
  have h := run_straight_line MEMORY_SIZE lines [] sys (by simpa using hprog) hlines
    (by simpa using hcap)
  rw [hstart] at h
  simp only [List.length_nil, Nat.zero_add] at h
  refine ⟨_, h.1, h.2, ?_, ?_, ?_, ?_⟩
  · simp [System.setReg]
  · intro r hr
    simp [System.setReg, Function.update_noteq hr]
  · intro i
    rfl
  · rfl

/-- Witness for C22 (amended): the store `ADDL $3 %EAX` / `END` started with
`EAX = 0` halts in its second iteration with `EAX = 3` and `EIP = 4`. -/
theorem straight_line_program_witness :
    ∃ sys', execute_instructions 1024 2 add_three_system = some sys'
      ∧ sys'.registers .EIP = 4
      ∧ sys'.registers .EAX = 3 :=
  (straight_line_program 1024 add_three_system ["ADDL $3 %EAX"] (by decide) rfl (by decide)
    (by decide)).imp
    (fun _ h => ⟨h.1, h.2.2.1, (h.2.2.2.1 .EAX (by decide)).trans (by decide)⟩)

end Interp
